import Mathlib

/-!
# Verification of the `better-all` task executor (`src/lib/index.ts`)

This file gives a shallow embedding of `executeTasksInternal`, the shared
engine behind the three public entry points `all` (fail-fast), `allSettled`
(settle-all) and `flow` (early-exit), and proves the specification claims
about it.

Modelling choices, each traceable to the source:

* JavaScript values that tasks produce are abstracted into `Val`; error
  objects into `Err`, where `Err.user id` stands for a user-thrown error
  object whose identity is `id` (propagation "by identity" becomes
  propagation of the same `Err` value).
* A task callable is a `Body`: a command tree with returning, throwing,
  awaiting a named sibling (`await this.$.dep`, with the surrounding
  `try`/`catch` giving both a success and a failure continuation),
  calling `this.$end(v)` (flow mode) and reading `this.$signal`.
  This covers the task programs the claims quantify over.
* The engine state `EngineState` carries exactly the mutable state of one
  `executeTasksInternal` invocation: the `results` and `errors` maps, the
  waiter (resolver) lists — represented as tasks in the `blocked` status —
  the incrementally built `returnValue` object (`retObj`), the flow flags
  `flowEnded`/`flowEndValue`, the internal `AbortController` state
  (`internalAborted`), the external signal (`ext`) and the cleanup
  controller (`cleanupDone`), and the settlement state of the combined
  promise (`combined`).
* Execution is a small-step relation driven by an explicit schedule
  (`List Choice`): each step either advances one task by one instruction
  (the event-loop running one continuation) or lets the environment abort
  the external signal.  The `Promise.all` / `Promise.allSettled` / flow
  final handler of lines 404-433 is applied eagerly after every step in
  `settleCombined`.  Universally quantified theorems over all schedules
  cover in particular the schedule the JavaScript microtask queue
  produces; concrete counterexamples use only JavaScript-feasible
  schedules.
-/

/-- JavaScript values produced by tasks (abstracted). `undef` is `undefined`. -/
inductive Val where
  | num (n : Int)
  | str (s : String)
  | undef
  deriving DecidableEq, Repr

/-- Error values.  `user id` is a user-thrown error object with identity `id`;
`unknownTask n` is `` Error(`Unknown task "${n}"`) `` from `waitForDep`;
`notAFunction n` is `` Error(`Task "${n}" is not a function`) ``;
`flowEnd v` is `FlowEndError` carrying `v`; `flowAborted` is
`FlowAbortedError`; `aborted` is `new Error('Aborted')` from the flow
final handler. -/
inductive Err where
  | user (id : Nat)
  | unknownTask (n : String)
  | notAFunction (n : String)
  | flowEnd (v : Val)
  | flowAborted
  | aborted
  deriving DecidableEq, Repr

/-- The two internal flow-control marker errors (`FlowEndError`,
`FlowAbortedError`), special-cased by the `catch` in flow mode. -/
def Err.isMarker : Err → Bool
  | .flowEnd _ => true
  | .flowAborted => true
  | _ => false

/-- A task body: the command tree of one task callable.
`awaitDep dep onOk onErr` is `await this.$.dep` with the success and
failure continuations of the surrounding code; `endFlow v` is
`this.$end(v)` (which never returns); `readSignal k` reads
`this.$signal.aborted` and `this.$signal.reason`. -/
inductive Body where
  | ret (v : Val)
  | throwE (e : Err)
  | awaitDep (dep : String) (onOk : Val → Body) (onErr : Err → Body)
  | endFlow (v : Val)
  | readSignal (k : Bool → Option Err → Body)

/-- One entry of the task set: a callable, or a non-function value
(`typeof taskFn !== 'function'` at line 313). -/
inductive Entry where
  | callable (b : Body)
  | notCallable

/-- Execution mode: `failFast` is `all` (`handleSettled = false`,
`flowMode` unset), `settleAll` is `allSettled` (`handleSettled = true`),
`flow` is `flow` (`handleSettled = false`, `flowMode = true`). -/
inductive Mode where
  | failFast
  | settleAll
  | flow
  deriving DecidableEq, Repr

/-- Runtime status of one task's wrapper promise (one element of the
`promises` array of line 310).
`notStarted`: the wrapper has not run yet; `running b`: the task is ready
to execute its next instruction `b`; `blocked dep onOk onErr`: the task
registered a `[resolve, reject]` pair on `resolvers.get(dep)` and is
suspended; `settledOk`: the wrapper promise fulfilled; `settledErr e`:
the wrapper promise rejected with `e` (the rethrow at line 399). -/
inductive TStat where
  | notStarted
  | running (b : Body)
  | blocked (dep : String) (onOk : Val → Body) (onErr : Err → Body)
  | settledOk
  | settledErr (e : Err)

/-- Status kind, for decidable observations about a task's status. -/
inductive SKind where
  | notStarted
  | running
  | blocked (dep : String)
  | settledOk
  | settledErr (e : Err)
  deriving DecidableEq, Repr

def TStat.kind : TStat → SKind
  | .notStarted => .notStarted
  | .running _ => .running
  | .blocked dep _ _ => .blocked dep
  | .settledOk => .settledOk
  | .settledErr e => .settledErr e

/-- Whether this wrapper promise has settled. -/
def TStat.isDone : TStat → Bool
  | .settledOk => true
  | .settledErr _ => true
  | _ => false

/-- State of the caller-supplied external `AbortSignal` (`options.signal`).
The reason is `Option Err`, `none` standing for an absent/falsy reason. -/
inductive ExtState where
  | notAborted
  | abortedW (r : Option Err)
  deriving DecidableEq, Repr

/-- One slot of the incrementally built `returnValue` object:
`plain v` is the `all`-mode write `returnValue[name] = value`;
`fulfilled v` / `rejected e` are the `allSettled`-mode descriptors. -/
inductive RVal where
  | plain (v : Val)
  | fulfilled (v : Val)
  | rejected (e : Err)
  deriving DecidableEq, Repr

/-- The value the combined promise resolves with: the `returnValue` object,
or (flow mode) the direct value. -/
inductive Ret where
  | obj (m : List (String × RVal))
  | flowVal (v : Val)
  deriving DecidableEq, Repr

/-- A scheduling choice: run the next pending continuation of a task, or
let the environment abort the external signal with reason `r`. -/
inductive Choice where
  | task (n : String)
  | extAbort (r : Option Err)

/-- Association-list lookup keyed by task name. -/
def lookupN {α : Type} (l : List (String × α)) (n : String) : Option α :=
  match l with
  | [] => none
  | (m, a) :: t => if m = n then some a else lookupN t n

/-- Association-list update: replace the binding of `n`, or append it
(`Map.set` semantics). -/
def setN {α : Type} (l : List (String × α)) (n : String) (a : α) :
    List (String × α) :=
  match l with
  | [] => [(n, a)]
  | (m, b) :: t => if m = n then (m, a) :: t else (m, b) :: setN t n a

/-- The complete mutable state of one `executeTasksInternal` invocation. -/
structure EngineState where
  mode : Mode
  tasks : List (String × Entry)
  stats : List (String × TStat)
  results : List (String × Val)
  errors : List (String × Err)
  retObj : List (String × RVal)
  invoked : List String
  flowEnded : Bool
  flowEndValue : Val
  internalAborted : Option (Option Err)
  ext : Option ExtState
  cleanupDone : Bool
  combined : Option (Except Err Ret)

/-- Update one task's status. -/
def updStat (l : List (String × TStat)) (n : String) (st : TStat) :
    List (String × TStat) :=
  setN l n st

/-- What `resolve(v)` on the waiter list of `name` does to one task's
status: a task blocked on `name` resumes with its success continuation. -/
def resumeOk (name : String) (v : Val) : TStat → TStat
  | .blocked dep onOk onErr =>
      if dep = name then .running (onOk v) else .blocked dep onOk onErr
  | st => st

/-- What `reject(e)` on the waiter list of `name` does to one task's
status. -/
def resumeErr (name : String) (e : Err) : TStat → TStat
  | .blocked dep onOk onErr =>
      if dep = name then .running (onErr e) else .blocked dep onOk onErr
  | st => st

/-- Drain the waiter list of `name` with `resolve(v)` (lines 290-294). -/
def drainOk (l : List (String × TStat)) (name : String) (v : Val) :
    List (String × TStat) :=
  l.map (fun p => (p.1, resumeOk name v p.2))

/-- Drain the waiter list of `name` with `reject(e)` (lines 302-306). -/
def drainErr (l : List (String × TStat)) (name : String) (e : Err) :
    List (String × TStat) :=
  l.map (fun p => (p.1, resumeErr name e p.2))

/-- `handleResult(name, value)` (lines 283-295) followed by the wrapper
promise fulfilling: record the value, write the `returnValue` slot
(fulfilled descriptor for settle-all, plain value for fail-fast, nothing
in flow mode), resolve all waiters, mark the wrapper settled. -/
def succeed (s : EngineState) (name : String) (v : Val) : EngineState :=
  { s with
    results := setN s.results name v
    retObj :=
      match s.mode with
      | .settleAll => s.retObj ++ [(name, .fulfilled v)]
      | .failFast => s.retObj ++ [(name, .plain v)]
      | .flow => s.retObj
    stats := drainOk (updStat s.stats name .settledOk) name v }

/-- `handleError(name, err)` (lines 297-307) followed by lines 395-400:
record the error, write the rejected descriptor (settle-all), reject all
waiters with the same error value, and — when `handleSettled` is false
(fail-fast and flow) — abort the internal controller with the error as
reason (a no-op if already aborted) and rethrow, rejecting the wrapper
promise; under settle-all the wrapper fulfills and nothing is aborted. -/
def failT (s : EngineState) (name : String) (e : Err) : EngineState :=
  { s with
    errors := setN s.errors name e
    retObj :=
      match s.mode with
      | .settleAll => s.retObj ++ [(name, .rejected e)]
      | _ => s.retObj
    stats :=
      drainErr
        (updStat s.stats name
          (match s.mode with
           | .settleAll => .settledOk
           | _ => .settledErr e)) name e
    internalAborted :=
      match s.mode with
      | .settleAll => s.internalAborted
      | _ => match s.internalAborted with
             | none => some (some e)
             | some r => some r }

/-- Advance the task `name` by one instruction.  This implements the task
wrapper of lines 310-402 together with `waitForDep` (lines 220-281),
`$end` (lines 330-338) and the `catch` discrimination of lines 367-400.
A task that is blocked, settled or absent is left unchanged (its
continuation is not runnable). -/
def stepTask (s : EngineState) (name : String) : EngineState :=
  match lookupN s.stats name with
  | none => s
  | some .notStarted =>
      match lookupN s.tasks name with
      | none => s
      | some .notCallable => failT s name (.notAFunction name)
      | some (.callable b) =>
          { s with
            stats := updStat s.stats name (.running b)
            invoked := s.invoked ++ [name] }
  | some (.running b) =>
      match b with
      | .ret v => succeed s name v
      | .throwE e =>
          if s.mode = .flow ∧ e.isMarker then
            { s with stats := updStat s.stats name .settledOk }
          else failT s name e
      | .awaitDep dep onOk onErr =>
          if (lookupN s.tasks dep).isNone then
            { s with stats := updStat s.stats name (.running (onErr (.unknownTask dep))) }
          else if s.mode = .flow ∧ s.flowEnded then
            { s with stats := updStat s.stats name (.running (onErr .flowAborted)) }
          else
            match lookupN s.results dep with
            | some v => { s with stats := updStat s.stats name (.running (onOk v)) }
            | none =>
                match lookupN s.errors dep with
                | some e => { s with stats := updStat s.stats name (.running (onErr e)) }
                | none => { s with stats := updStat s.stats name (.blocked dep onOk onErr) }
      | .endFlow v =>
          if s.mode = .flow then
            if s.flowEnded then { s with stats := updStat s.stats name .settledOk }
            else
              { s with
                flowEnded := true
                flowEndValue := v
                stats := updStat s.stats name .settledOk }
          else s
      | .readSignal k =>
          { s with
            stats := updStat s.stats name
              (.running (k s.internalAborted.isSome
                (match s.internalAborted with | some r => r | none => none))) }
  | some (.blocked _ _ _) => s
  | some .settledOk => s
  | some (.settledErr _) => s

/-- The environment aborts the external signal with reason `r`.  The
`abort` listener of lines 203-207 propagates the reason to the internal
controller unless the cleanup controller already removed it; a second
abort of the external signal, or aborting an absent signal, does
nothing. -/
def doExtAbort (s : EngineState) (r : Option Err) : EngineState :=
  match s.ext with
  | some .notAborted =>
      { s with
        ext := some (.abortedW r)
        internalAborted :=
          if s.cleanupDone then s.internalAborted
          else match s.internalAborted with
               | none => some r
               | some r' => some r' }
  | _ => s

/-- All wrapper promises have settled. -/
def allDone (s : EngineState) : Bool :=
  s.stats.all (fun p => p.2.isDone)

/-- The first rejected wrapper promise, in task order: the rejection
`Promise.all` (fail-fast) reacts to, and the `result.status === 'rejected'`
scan of the flow handler (lines 415-419). -/
def firstWrapperErr (s : EngineState) : Option Err :=
  match s.stats.find? (fun p => p.2.kind matches SKind.settledErr _) with
  | some (_, .settledErr e) => some e
  | _ => none

/-- The outcome the combined promise's combinator would settle with right
now, if any (lines 404-440).  Fail-fast: `Promise.all(promises)` rejects
with the first wrapper rejection, or fulfills with `returnValue` once all
fulfill; settle-all: `Promise.allSettled(promises).then(() => returnValue)`;
flow: once all wrappers settle, check the external signal, then genuine
task errors, then `flowEnded`. -/
def combinedNow (s : EngineState) : Option (Except Err Ret) :=
  match s.mode with
  | .failFast =>
      match firstWrapperErr s with
      | some e => some (.error e)
      | none => if allDone s then some (.ok (.obj s.retObj)) else none
  | .settleAll =>
      if allDone s then some (.ok (.obj s.retObj)) else none
  | .flow =>
      if allDone s then
        some
          (match s.ext with
           | some (.abortedW r) => .error (r.getD .aborted)
           | _ =>
               match firstWrapperErr s with
               | some e => .error e
               | none =>
                   .ok (.flowVal (if s.flowEnded then s.flowEndValue else .undef)))
      else none

/-- Let the combinator of the combined promise react: a promise settles at
most once, and the `.finally` / flow-handler cleanup aborts the cleanup
controller at the moment of settlement. -/
def settleCombined (s : EngineState) : EngineState :=
  if s.combined.isSome then s
  else
    match combinedNow s with
    | some o => { s with combined := some o, cleanupDone := true }
    | none => s

/-- One step of the event loop: perform the chosen action, then let the
combined promise's combinator react. -/
def step (s : EngineState) (c : Choice) : EngineState :=
  settleCombined
    (match c with
     | .task n => stepTask s n
     | .extAbort r => doExtAbort s r)

/-- Run a whole schedule. -/
def run (s : EngineState) (cs : List Choice) : EngineState :=
  cs.foldl step s

/-- The state at entry of `executeTasksInternal`, before any combinator
reacts: every map empty, every task not yet started, and the internal
controller aborted immediately when the external signal is already
aborted (lines 200-201). -/
def initBase (mode : Mode) (tasks : List (String × Entry))
    (ext : Option ExtState) : EngineState :=
  { mode := mode
    tasks := tasks
    stats := tasks.map (fun p => (p.1, .notStarted))
    results := []
    errors := []
    retObj := []
    invoked := []
    flowEnded := false
    flowEndValue := .undef
    internalAborted :=
      match ext with
      | some (.abortedW r) => some r
      | _ => none
    ext := ext
    cleanupDone := false
    combined := none }

/-- The state at entry of `executeTasksInternal`, with the combinator
given its first chance to fire (an empty task set settles at once). -/
def initState (mode : Mode) (tasks : List (String × Entry))
    (ext : Option ExtState) : EngineState :=
  settleCombined (initBase mode tasks ext)

/-- An execution of the engine on `tasks` in `mode` under schedule `cs`. -/
def runFrom (mode : Mode) (tasks : List (String × Entry))
    (ext : Option ExtState) (cs : List Choice) : EngineState :=
  run (initState mode tasks ext) cs

/-! ## Association-list lemmas -/

theorem lookupN_setN_self {α : Type} (l : List (String × α)) (n : String) (a : α) :
    lookupN (setN l n a) n = some a := by
  induction l with
  | nil => simp [setN, lookupN]
  | cons p t ih =>
      obtain ⟨m, b⟩ := p
      by_cases h : m = n
      · simp [setN, h, lookupN]
      · simp [setN, h, lookupN, ih]

theorem lookupN_setN_ne {α : Type} (l : List (String × α)) (n m : String) (a : α)
    (h : m ≠ n) : lookupN (setN l n a) m = lookupN l m := by
  induction l with
  | nil =>
      simp only [setN, lookupN, if_neg (Ne.symm h)]
  | cons p t ih =>
      obtain ⟨k, b⟩ := p
      by_cases hk : k = n
      · subst hk
        simp only [setN, if_pos rfl, lookupN, if_neg (Ne.symm h)]
      · simp only [setN, if_neg hk, lookupN]
        by_cases hkm : k = m
        · simp [hkm]
        · simp [hkm, ih]

theorem keys_setN {α : Type} (l : List (String × α)) (n : String) (a : α)
    (h : (lookupN l n).isSome) :
    (setN l n a).map Prod.fst = l.map Prod.fst := by
  induction l with
  | nil => simp [lookupN] at h
  | cons p t ih =>
      obtain ⟨k, b⟩ := p
      by_cases hk : k = n
      · simp [setN, hk]
      · simp [lookupN, hk] at h
        simp [setN, hk, ih h]

theorem lookupN_mem {α : Type} {l : List (String × α)} {n : String} {a : α}
    (h : lookupN l n = some a) : (n, a) ∈ l := by
  induction l with
  | nil => simp [lookupN] at h
  | cons p t ih =>
      obtain ⟨k, b⟩ := p
      by_cases hk : k = n
      · subst hk
        simp [lookupN] at h
        simp [h]
      · simp [lookupN, hk] at h
        exact List.mem_cons_of_mem _ (ih h)

theorem mem_lookupN {α : Type} {l : List (String × α)} {n : String} {a : α}
    (hnd : (l.map Prod.fst).Nodup) (h : (n, a) ∈ l) : lookupN l n = some a := by
  induction l with
  | nil => simp at h
  | cons p t ih =>
      obtain ⟨k, b⟩ := p
      simp only [List.map_cons, List.nodup_cons] at hnd
      rcases List.mem_cons.mp h with h1 | h1
      · cases h1
        simp [lookupN]
      · have hk : ¬k = n := by
          intro hkn
          subst hkn
          exact hnd.1 (List.mem_map_of_mem Prod.fst h1)
        simp only [lookupN, if_neg hk]
        exact ih hnd.2 h1

theorem lookupN_isSome_iff {α : Type} (l : List (String × α)) (n : String) :
    (lookupN l n).isSome ↔ n ∈ l.map Prod.fst := by
  induction l with
  | nil => simp [lookupN]
  | cons p t ih =>
      obtain ⟨k, b⟩ := p
      by_cases hk : k = n
      · simp [lookupN, hk]
      · have hnk : ¬n = k := fun hc => hk hc.symm
        simp [lookupN, hk, ih, hnk]

theorem lookupN_mapSnd {α β : Type} (l : List (String × α)) (f : α → β) (n : String) :
    lookupN (l.map (fun p => (p.1, f p.2))) n = (lookupN l n).map f := by
  induction l with
  | nil => simp [lookupN]
  | cons p t ih =>
      obtain ⟨k, b⟩ := p
      by_cases hk : k = n
      · simp [lookupN, hk]
      · simp [lookupN, hk, ih]

theorem lookupN_append_some {α : Type} {l l' : List (String × α)} {n : String} {a : α}
    (h : lookupN l n = some a) : lookupN (l ++ l') n = some a := by
  induction l with
  | nil => simp [lookupN] at h
  | cons p t ih =>
      obtain ⟨k, b⟩ := p
      by_cases hk : k = n
      · subst hk
        simp [lookupN] at h ⊢
        exact h
      · simp [lookupN, hk] at h ⊢
        exact ih h

theorem lookupN_append_none {α : Type} {l : List (String × α)} (l' : List (String × α))
    {n : String} (h : lookupN l n = none) :
    lookupN (l ++ l') n = lookupN l' n := by
  induction l with
  | nil => simp [lookupN]
  | cons p t ih =>
      obtain ⟨k, b⟩ := p
      by_cases hk : k = n
      · subst hk
        simp [lookupN] at h
      · simp [lookupN, hk] at h ⊢
        exact ih h

/-! ## Frame lemmas -/

/-- `settleCombined` either leaves the state unchanged (and then no
combinator can fire) or settles a previously unsettled combined promise
with the outcome `combinedNow` dictates, touching nothing else. -/
theorem settleCombined_spec (s : EngineState) :
    (settleCombined s = s ∧ (s.combined = none → combinedNow s = none)) ∨
    (∃ o, s.combined = none ∧ combinedNow s = some o ∧
      settleCombined s = { s with combined := some o, cleanupDone := true }) := by
  unfold settleCombined
  by_cases h : s.combined.isSome
  · left
    refine ⟨by rw [if_pos h], fun hn => ?_⟩
    rw [hn] at h
    simp at h
  · rw [if_neg h]
    cases hc : combinedNow s with
    | none => exact Or.inl ⟨rfl, fun _ => hc ▸ rfl⟩
    | some o =>
        right
        exact ⟨o, Option.not_isSome_iff_eq_none.mp h, rfl, rfl⟩

theorem settleCombined_stats (s : EngineState) :
    (settleCombined s).stats = s.stats := by
  rcases settleCombined_spec s with ⟨h, -⟩ | ⟨o, -, -, h⟩ <;> rw [h]

theorem settleCombined_results (s : EngineState) :
    (settleCombined s).results = s.results := by
  rcases settleCombined_spec s with ⟨h, -⟩ | ⟨o, -, -, h⟩ <;> rw [h]

theorem settleCombined_errors (s : EngineState) :
    (settleCombined s).errors = s.errors := by
  rcases settleCombined_spec s with ⟨h, -⟩ | ⟨o, -, -, h⟩ <;> rw [h]

theorem settleCombined_retObj (s : EngineState) :
    (settleCombined s).retObj = s.retObj := by
  rcases settleCombined_spec s with ⟨h, -⟩ | ⟨o, -, -, h⟩ <;> rw [h]

theorem settleCombined_invoked (s : EngineState) :
    (settleCombined s).invoked = s.invoked := by
  rcases settleCombined_spec s with ⟨h, -⟩ | ⟨o, -, -, h⟩ <;> rw [h]

theorem settleCombined_flowEnded (s : EngineState) :
    (settleCombined s).flowEnded = s.flowEnded := by
  rcases settleCombined_spec s with ⟨h, -⟩ | ⟨o, -, -, h⟩ <;> rw [h]

theorem settleCombined_flowEndValue (s : EngineState) :
    (settleCombined s).flowEndValue = s.flowEndValue := by
  rcases settleCombined_spec s with ⟨h, -⟩ | ⟨o, -, -, h⟩ <;> rw [h]

theorem settleCombined_internalAborted (s : EngineState) :
    (settleCombined s).internalAborted = s.internalAborted := by
  rcases settleCombined_spec s with ⟨h, -⟩ | ⟨o, -, -, h⟩ <;> rw [h]

theorem settleCombined_ext (s : EngineState) :
    (settleCombined s).ext = s.ext := by
  rcases settleCombined_spec s with ⟨h, -⟩ | ⟨o, -, -, h⟩ <;> rw [h]

theorem settleCombined_mode (s : EngineState) :
    (settleCombined s).mode = s.mode := by
  rcases settleCombined_spec s with ⟨h, -⟩ | ⟨o, -, -, h⟩ <;> rw [h]

theorem settleCombined_tasks (s : EngineState) :
    (settleCombined s).tasks = s.tasks := by
  rcases settleCombined_spec s with ⟨h, -⟩ | ⟨o, -, -, h⟩ <;> rw [h]

theorem settleCombined_combined_some (s : EngineState) (o : Except Err Ret)
    (h : s.combined = some o) : settleCombined s = s := by
  unfold settleCombined
  rw [if_pos (by simp [h])]

theorem stepTask_combined (s : EngineState) (n : String) :
    (stepTask s n).combined = s.combined := by
  unfold stepTask succeed failT
  repeat' split
  all_goals rfl

theorem stepTask_ext (s : EngineState) (n : String) :
    (stepTask s n).ext = s.ext := by
  unfold stepTask succeed failT
  repeat' split
  all_goals rfl

theorem stepTask_mode (s : EngineState) (n : String) :
    (stepTask s n).mode = s.mode := by
  unfold stepTask succeed failT
  repeat' split
  all_goals rfl

theorem stepTask_tasks (s : EngineState) (n : String) :
    (stepTask s n).tasks = s.tasks := by
  unfold stepTask succeed failT
  repeat' split
  all_goals rfl

theorem stepTask_cleanupDone (s : EngineState) (n : String) :
    (stepTask s n).cleanupDone = s.cleanupDone := by
  unfold stepTask succeed failT
  repeat' split
  all_goals rfl

theorem doExtAbort_stats (s : EngineState) (r : Option Err) :
    (doExtAbort s r).stats = s.stats := by
  unfold doExtAbort
  split <;> rfl

theorem doExtAbort_results (s : EngineState) (r : Option Err) :
    (doExtAbort s r).results = s.results := by
  unfold doExtAbort
  split <;> rfl

theorem doExtAbort_errors (s : EngineState) (r : Option Err) :
    (doExtAbort s r).errors = s.errors := by
  unfold doExtAbort
  split <;> rfl

theorem doExtAbort_retObj (s : EngineState) (r : Option Err) :
    (doExtAbort s r).retObj = s.retObj := by
  unfold doExtAbort
  split <;> rfl

theorem doExtAbort_invoked (s : EngineState) (r : Option Err) :
    (doExtAbort s r).invoked = s.invoked := by
  unfold doExtAbort
  split <;> rfl

theorem doExtAbort_flowEnded (s : EngineState) (r : Option Err) :
    (doExtAbort s r).flowEnded = s.flowEnded := by
  unfold doExtAbort
  split <;> rfl

theorem doExtAbort_flowEndValue (s : EngineState) (r : Option Err) :
    (doExtAbort s r).flowEndValue = s.flowEndValue := by
  unfold doExtAbort
  split <;> rfl

theorem doExtAbort_combined (s : EngineState) (r : Option Err) :
    (doExtAbort s r).combined = s.combined := by
  unfold doExtAbort
  split <;> rfl

theorem doExtAbort_mode (s : EngineState) (r : Option Err) :
    (doExtAbort s r).mode = s.mode := by
  unfold doExtAbort
  split <;> rfl

theorem doExtAbort_tasks (s : EngineState) (r : Option Err) :
    (doExtAbort s r).tasks = s.tasks := by
  unfold doExtAbort
  split <;> rfl

theorem step_task_eq (s : EngineState) (n : String) :
    step s (.task n) = settleCombined (stepTask s n) := rfl

theorem step_extAbort_eq (s : EngineState) (r : Option Err) :
    step s (.extAbort r) = settleCombined (doExtAbort s r) := rfl

theorem run_cons (s : EngineState) (c : Choice) (cs : List Choice) :
    run s (c :: cs) = run (step s c) cs := rfl

theorem run_append (s : EngineState) (cs cs' : List Choice) :
    run s (cs ++ cs') = run (run s cs) cs' := by
  unfold run
  exact List.foldl_append _ _ _ _

theorem step_mode (s : EngineState) (c : Choice) :
    (step s c).mode = s.mode := by
  cases c with
  | task n => rw [step_task_eq, settleCombined_mode, stepTask_mode]
  | extAbort r => rw [step_extAbort_eq, settleCombined_mode, doExtAbort_mode]

theorem step_tasks (s : EngineState) (c : Choice) :
    (step s c).tasks = s.tasks := by
  cases c with
  | task n => rw [step_task_eq, settleCombined_tasks, stepTask_tasks]
  | extAbort r => rw [step_extAbort_eq, settleCombined_tasks, doExtAbort_tasks]

theorem run_mode (s : EngineState) (cs : List Choice) :
    (run s cs).mode = s.mode := by
  induction cs generalizing s with
  | nil => rfl
  | cons c cs ih => rw [run_cons, ih, step_mode]

theorem run_tasks (s : EngineState) (cs : List Choice) :
    (run s cs).tasks = s.tasks := by
  induction cs generalizing s with
  | nil => rfl
  | cons c cs ih => rw [run_cons, ih, step_tasks]

/-! ## Resume and drain lemmas -/

theorem lookupN_append_single_ne {α : Type} (l : List (String × α)) {n m : String}
    (a : α) (h : m ≠ n) : lookupN (l ++ [(n, a)]) m = lookupN l m := by
  cases hl : lookupN l m with
  | some b => exact lookupN_append_some hl
  | none =>
      have h2 : lookupN [(n, a)] m = none := by
        simp only [lookupN, if_neg (Ne.symm h)]
      rw [lookupN_append_none _ hl, h2]

theorem keys_mapSnd {α β : Type} (l : List (String × α)) (f : α → β) :
    (l.map (fun p => (p.1, f p.2))).map Prod.fst = l.map Prod.fst := by
  induction l with
  | nil => rfl
  | cons p t ih => simp [ih]

theorem lookupN_drainOk (l : List (String × TStat)) (name : String) (v : Val)
    (n : String) :
    lookupN (drainOk l name v) n = (lookupN l n).map (resumeOk name v) :=
  lookupN_mapSnd l (resumeOk name v) n

theorem lookupN_drainErr (l : List (String × TStat)) (name : String) (e : Err)
    (n : String) :
    lookupN (drainErr l name e) n = (lookupN l n).map (resumeErr name e) :=
  lookupN_mapSnd l (resumeErr name e) n

theorem keys_drainOk (l : List (String × TStat)) (name : String) (v : Val) :
    (drainOk l name v).map Prod.fst = l.map Prod.fst :=
  keys_mapSnd l (resumeOk name v)

theorem keys_drainErr (l : List (String × TStat)) (name : String) (e : Err) :
    (drainErr l name e).map Prod.fst = l.map Prod.fst :=
  keys_mapSnd l (resumeErr name e)

theorem resumeOk_isDone (name : String) (v : Val) (st : TStat) :
    (resumeOk name v st).isDone = st.isDone := by
  cases st with
  | blocked dep onOk onErr =>
      simp only [resumeOk]
      split <;> rfl
  | notStarted => rfl
  | running b => rfl
  | settledOk => rfl
  | settledErr e => rfl

theorem resumeErr_isDone (name : String) (e : Err) (st : TStat) :
    (resumeErr name e st).isDone = st.isDone := by
  cases st with
  | blocked dep onOk onErr =>
      simp only [resumeErr]
      split <;> rfl
  | notStarted => rfl
  | running b => rfl
  | settledOk => rfl
  | settledErr e' => rfl

theorem resumeOk_of_done {st : TStat} (name : String) (v : Val)
    (h : st.isDone = true) : resumeOk name v st = st := by
  cases st <;> simp [TStat.isDone] at h <;> rfl

theorem resumeErr_of_done {st : TStat} (name : String) (e : Err)
    (h : st.isDone = true) : resumeErr name e st = st := by
  cases st <;> simp [TStat.isDone] at h <;> rfl

theorem resumeOk_notStarted_iff (name : String) (v : Val) (st : TStat) :
    resumeOk name v st = .notStarted ↔ st = .notStarted := by
  cases st <;> simp [resumeOk]
  split <;> simp

theorem resumeErr_notStarted_iff (name : String) (e : Err) (st : TStat) :
    resumeErr name e st = .notStarted ↔ st = .notStarted := by
  cases st <;> simp [resumeErr]
  split <;> simp

theorem resumeOk_settledErr_iff (name : String) (v : Val) (st : TStat) (e' : Err) :
    resumeOk name v st = .settledErr e' ↔ st = .settledErr e' := by
  cases st <;> simp [resumeOk]
  split <;> simp

theorem resumeErr_settledErr_iff (name : String) (e : Err) (st : TStat) (e' : Err) :
    resumeErr name e st = .settledErr e' ↔ st = .settledErr e' := by
  cases st <;> simp [resumeErr]
  split <;> simp

/-! ## `allDone`, `firstWrapperErr` and `combinedNow` analysis -/

theorem allDone_lookup {s : EngineState} {n : String} {st : TStat}
    (h : allDone s = true) (hst : lookupN s.stats n = some st) :
    st.isDone = true := by
  have hm := lookupN_mem hst
  exact List.all_eq_true.mp h (n, st) hm

theorem stepTask_of_allDone {s : EngineState} (h : allDone s = true) (n : String) :
    stepTask s n = s := by
  unfold stepTask
  cases hst : lookupN s.stats n with
  | none => rfl
  | some st =>
      have hd := allDone_lookup h hst
      cases st with
      | settledOk => rfl
      | settledErr e => rfl
      | notStarted => simp [TStat.isDone] at hd
      | running b => simp [TStat.isDone] at hd
      | blocked d k1 k2 => simp [TStat.isDone] at hd

theorem firstWrapperErr_some {s : EngineState} {e : Err}
    (h : firstWrapperErr s = some e) :
    ∃ n, (n, TStat.settledErr e) ∈ s.stats := by
  unfold firstWrapperErr at h
  cases hf : s.stats.find? (fun p => p.2.kind matches SKind.settledErr _) with
  | none => rw [hf] at h; simp at h
  | some p =>
      rw [hf] at h
      obtain ⟨n, st⟩ := p
      cases st with
      | settledErr e' =>
          simp at h
          subst h
          exact ⟨n, List.mem_of_find?_eq_some hf⟩
      | notStarted => simp at h
      | running b => simp at h
      | blocked d k1 k2 => simp at h
      | settledOk => simp at h

theorem firstWrapperErr_isSome_of_mem {s : EngineState} {n : String} {e : Err}
    (h : (n, TStat.settledErr e) ∈ s.stats) :
    (firstWrapperErr s).isSome := by
  unfold firstWrapperErr
  have hs : ∃ p, p ∈ s.stats ∧ (fun p : String × TStat =>
      p.2.kind matches SKind.settledErr _) p = true :=
    ⟨(n, TStat.settledErr e), h, rfl⟩
  cases hf : s.stats.find? (fun p => p.2.kind matches SKind.settledErr _) with
  | none =>
      obtain ⟨p, hp, hpt⟩ := hs
      have hno := List.find?_eq_none.mp hf p hp
      exact absurd hpt hno
  | some p =>
      have hpt := List.find?_some hf
      obtain ⟨m, st⟩ := p
      cases st with
      | settledErr e' => simp
      | notStarted => simp [TStat.kind] at hpt
      | running b => simp [TStat.kind] at hpt
      | blocked d k1 k2 => simp [TStat.kind] at hpt
      | settledOk => simp [TStat.kind] at hpt

theorem firstWrapperErr_congr {s t : EngineState} (h : s.stats = t.stats) :
    firstWrapperErr s = firstWrapperErr t := by
  unfold firstWrapperErr
  rw [h]

theorem allDone_congr {s t : EngineState} (h : s.stats = t.stats) :
    allDone s = allDone t := by
  unfold allDone
  rw [h]

theorem combinedNow_some_spec {s : EngineState} {o : Except Err Ret}
    (h : combinedNow s = some o) :
    (s.mode = .failFast ∧ ∃ e, firstWrapperErr s = some e ∧ o = .error e) ∨
    (s.mode = .failFast ∧ allDone s = true ∧ o = .ok (.obj s.retObj)) ∨
    (s.mode = .settleAll ∧ allDone s = true ∧ o = .ok (.obj s.retObj)) ∨
    (s.mode = .flow ∧ allDone s = true ∧
      ((∃ r, s.ext = some (.abortedW r) ∧ o = .error (r.getD .aborted)) ∨
       (∃ e, firstWrapperErr s = some e ∧ o = .error e) ∨
       (firstWrapperErr s = none ∧
        o = .ok (.flowVal (if s.flowEnded = true then s.flowEndValue else Val.undef))))) := by
  unfold combinedNow at h
  cases hm : s.mode with
  | failFast =>
      rw [hm] at h
      cases hf : firstWrapperErr s with
      | some e =>
          rw [hf] at h
          simp only [Option.some.injEq] at h
          exact Or.inl ⟨rfl, e, rfl, h.symm⟩
      | none =>
          rw [hf] at h
          by_cases hd : allDone s = true
          · rw [if_pos hd] at h
            simp only [Option.some.injEq] at h
            exact Or.inr (Or.inl ⟨rfl, hd, h.symm⟩)
          · rw [if_neg hd] at h
            exact absurd h (by simp)
  | settleAll =>
      rw [hm] at h
      by_cases hd : allDone s = true
      · rw [if_pos hd] at h
        simp only [Option.some.injEq] at h
        exact Or.inr (Or.inr (Or.inl ⟨rfl, hd, h.symm⟩))
      · rw [if_neg hd] at h
        exact absurd h (by simp)
  | flow =>
      rw [hm] at h
      replace h :
          (if allDone s = true then
            some
              (match s.ext with
               | some (.abortedW r) => Except.error (r.getD .aborted)
               | _ =>
                   match firstWrapperErr s with
                   | some e => Except.error e
                   | none =>
                       Except.ok (.flowVal
                         (if s.flowEnded = true then s.flowEndValue else Val.undef)))
          else none) = some o := h
      by_cases hd : allDone s = true
      · rw [if_pos hd] at h
        simp only [Option.some.injEq] at h
        refine Or.inr (Or.inr (Or.inr ⟨rfl, hd, ?_⟩))
        cases he : s.ext with
        | some est =>
            cases est with
            | abortedW r =>
                rw [he] at h
                exact Or.inl ⟨r, rfl, h.symm⟩
            | notAborted =>
                rw [he] at h
                cases hf : firstWrapperErr s with
                | some e =>
                    rw [hf] at h
                    exact Or.inr (Or.inl ⟨e, rfl, h.symm⟩)
                | none =>
                    rw [hf] at h
                    exact Or.inr (Or.inr ⟨rfl, h.symm⟩)
        | none =>
            rw [he] at h
            cases hf : firstWrapperErr s with
            | some e =>
                rw [hf] at h
                exact Or.inr (Or.inl ⟨e, rfl, h.symm⟩)
            | none =>
                rw [hf] at h
                exact Or.inr (Or.inr ⟨rfl, h.symm⟩)
      · rw [if_neg hd] at h
        exact absurd h (by simp)

/-! ## The core engine invariant -/

/-- Core invariant of the engine state, phrased over the state components
it constrains (so that updates of other fields preserve it definitionally):

* `keysNd`/`statsKeys`: one wrapper promise per task name;
* `recDone`: an outcome is recorded only for tasks whose wrapper settled;
* `notBoth`: no task is both fulfilled and rejected;
* `invokedIff`/`invokedNd`: a callable is invoked exactly when its task
  has started, and never twice;
* `errStat`: a rejected wrapper promise carries the task's recorded error;
* `noErrStatSA`: under settle-all no wrapper promise ever rejects;
* `retCorr`/`retDone`/`retKeys`: under settle-all the `returnValue` object
  has exactly one descriptor per settled task, matching the recorded
  outcome;
* `iaSA`: under settle-all the internal controller is aborted only by the
  external signal, with the external reason as cause;
* `errNonMarkerFlow`: in flow mode no wrapper promise rejects with an
  internal flow-control marker. -/
structure InvCoreF (mode : Mode) (tasks : List (String × Entry))
    (stats : List (String × TStat)) (results : List (String × Val))
    (errors : List (String × Err)) (retObj : List (String × RVal))
    (invoked : List String) (ia : Option (Option Err))
    (ext : Option ExtState) : Prop where
  keysNd : (stats.map Prod.fst).Nodup
  statsKeys : stats.map Prod.fst = tasks.map Prod.fst
  recDone : ∀ n, ((lookupN results n).isSome = true ∨ (lookupN errors n).isSome = true) →
      ∃ st, lookupN stats n = some st ∧ st.isDone = true
  notBoth : ∀ n, lookupN results n = none ∨ lookupN errors n = none
  invokedIff : ∀ n, n ∈ invoked ↔
      ((∃ b, lookupN tasks n = some (.callable b)) ∧
       ∃ st, lookupN stats n = some st ∧ st ≠ TStat.notStarted)
  invokedNd : invoked.Nodup
  errStat : ∀ n e, lookupN stats n = some (.settledErr e) → lookupN errors n = some e
  noErrStatSA : mode = .settleAll → ∀ n e, lookupN stats n ≠ some (.settledErr e)
  retCorr : mode = .settleAll → ∀ n rv, lookupN retObj n = some rv →
      (∃ v, rv = RVal.fulfilled v ∧ lookupN results n = some v) ∨
      (∃ e, rv = RVal.rejected e ∧ lookupN errors n = some e)
  retDone : mode = .settleAll → ∀ n st, lookupN stats n = some st →
      (st.isDone = true ↔ (lookupN retObj n).isSome = true)
  retKeys : mode = .settleAll → ∀ n, (lookupN retObj n).isSome = true →
      (lookupN stats n).isSome = true
  iaSA : mode = .settleAll → ∀ r, ia = some r → ext = some (.abortedW r)
  errNonMarkerFlow : mode = .flow → ∀ n e,
      lookupN stats n = some (.settledErr e) → e.isMarker = false
  errStatRev : mode ≠ .settleAll → ∀ n e, lookupN errors n = some e →
      lookupN stats n = some (.settledErr e)

/-- The core invariant of one engine state. -/
def InvCore (s : EngineState) : Prop :=
  InvCoreF s.mode s.tasks s.stats s.results s.errors s.retObj s.invoked
    s.internalAborted s.ext

/-- A task whose wrapper promise has not settled has no recorded outcome. -/
theorem fresh_of_undone {s : EngineState} (hI : InvCore s) {name : String} {st : TStat}
    (hstat : lookupN s.stats name = some st) (hnd : st.isDone = false) :
    lookupN s.results name = none ∧ lookupN s.errors name = none := by
  constructor
  · cases hr : lookupN s.results name with
    | none => rfl
    | some v =>
        obtain ⟨st', hst', hd⟩ := hI.recDone name (Or.inl (by simp [hr]))
        rw [hstat] at hst'
        injection hst' with hst'
        rw [← hst'] at hd
        rw [hd] at hnd
        cases hnd
  · cases hr : lookupN s.errors name with
    | none => rfl
    | some e =>
        obtain ⟨st', hst', hd⟩ := hI.recDone name (Or.inr (by simp [hr]))
        rw [hstat] at hst'
        injection hst' with hst'
        rw [← hst'] at hd
        rw [hd] at hnd
        cases hnd

/-- Advancing a running task to another not-yet-settled, non-rejected
status (resuming a dependency lookup, blocking on one, reading the
signal) preserves the core invariant. -/
theorem InvCoreF_pure_upd {mode : Mode} {tasks : List (String × Entry)}
    {stats : List (String × TStat)} {results : List (String × Val)}
    {errors : List (String × Err)} {retObj : List (String × RVal)}
    {invoked : List String} {ia : Option (Option Err)} {ext : Option ExtState}
    (hI : InvCoreF mode tasks stats results errors retObj invoked ia ext)
    {n : String} {b : Body} (hstat : lookupN stats n = some (.running b))
    (st' : TStat) (h1 : st' ≠ TStat.notStarted) (h2 : st'.isDone = false)
    (h3 : ∀ e, st' ≠ TStat.settledErr e) :
    InvCoreF mode tasks (updStat stats n st') results errors retObj invoked ia ext := by
  have hkeys : (updStat stats n st').map Prod.fst = stats.map Prod.fst :=
    keys_setN stats n st' (by rw [hstat]; rfl)
  have hself : lookupN (updStat stats n st') n = some st' := lookupN_setN_self stats n st'
  have hne : ∀ m, m ≠ n → lookupN (updStat stats n st') m = lookupN stats m :=
    fun m hm => lookupN_setN_ne stats n m st' hm
  refine ⟨?_, ?_, ?_, hI.notBoth, ?_, hI.invokedNd, ?_, ?_, hI.retCorr, ?_, ?_,
    hI.iaSA, ?_, ?_⟩
  · rw [hkeys]; exact hI.keysNd
  · rw [hkeys]; exact hI.statsKeys
  · intro m hrec
    obtain ⟨st, hstm, hdone⟩ := hI.recDone m hrec
    by_cases hm : m = n
    · subst hm
      rw [hstat] at hstm
      injection hstm with hstm
      rw [← hstm] at hdone
      exact absurd hdone (by simp [TStat.isDone])
    · exact ⟨st, by rw [hne m hm]; exact hstm, hdone⟩
  · intro m
    rw [hI.invokedIff m]
    by_cases hm : m = n
    · subst hm
      constructor
      · rintro ⟨hc, st, hstm, hne2⟩
        exact ⟨hc, st', hself, h1⟩
      · rintro ⟨hc, st, hstm, hne2⟩
        exact ⟨hc, .running b, hstat, by intro hc2; exact TStat.noConfusion hc2⟩
    · constructor
      · rintro ⟨hc, st, hstm, hne2⟩
        exact ⟨hc, st, by rw [hne m hm]; exact hstm, hne2⟩
      · rintro ⟨hc, st, hstm, hne2⟩
        rw [hne m hm] at hstm
        exact ⟨hc, st, hstm, hne2⟩
  · intro m e hm'
    by_cases hm : m = n
    · subst hm
      rw [hself] at hm'
      injection hm' with hm'
      exact absurd hm' (h3 e)
    · rw [hne m hm] at hm'
      exact hI.errStat m e hm'
  · intro hsa m e hm'
    by_cases hm : m = n
    · subst hm
      rw [hself] at hm'
      injection hm' with hm'
      exact absurd hm' (h3 e)
    · rw [hne m hm] at hm'
      exact hI.noErrStatSA hsa m e hm'
  · intro hsa m st hstm
    by_cases hm : m = n
    · subst hm
      rw [hself] at hstm
      injection hstm with hstm
      subst hstm
      constructor
      · intro hfalse
        rw [h2] at hfalse
        cases hfalse
      · intro hsome
        have hthis := (hI.retDone hsa m _ hstat).mpr hsome
        simp [TStat.isDone] at hthis
    · rw [hne m hm] at hstm
      exact hI.retDone hsa m st hstm
  · intro hsa m hsome
    have h0 := hI.retKeys hsa m hsome
    rw [lookupN_isSome_iff] at h0 ⊢
    rw [hkeys]
    exact h0
  · intro hfl m e hm'
    by_cases hm : m = n
    · subst hm
      rw [hself] at hm'
      injection hm' with hm'
      exact absurd hm' (h3 e)
    · rw [hne m hm] at hm'
      exact hI.errNonMarkerFlow hfl m e hm'
  · intro hns m e hm'
    have hold := hI.errStatRev hns m e hm'
    by_cases hm2 : m = n
    · subst hm2
      rw [hstat] at hold
      injection hold with hold
      exact TStat.noConfusion hold
    · rw [hne m hm2]
      exact hold

/-- Settling a running task's wrapper promise as fulfilled without
recording an outcome — the flow-mode treatment of the two internal
marker errors — preserves the core invariant (it can only happen
outside settle-all mode). -/
theorem InvCoreF_settledOk_upd {mode : Mode} {tasks : List (String × Entry)}
    {stats : List (String × TStat)} {results : List (String × Val)}
    {errors : List (String × Err)} {retObj : List (String × RVal)}
    {invoked : List String} {ia : Option (Option Err)} {ext : Option ExtState}
    (hI : InvCoreF mode tasks stats results errors retObj invoked ia ext)
    {n : String} {b : Body} (hstat : lookupN stats n = some (.running b))
    (hmode : mode ≠ Mode.settleAll) :
    InvCoreF mode tasks (updStat stats n .settledOk) results errors retObj invoked ia ext := by
  have hkeys : (updStat stats n TStat.settledOk).map Prod.fst = stats.map Prod.fst :=
    keys_setN stats n _ (by rw [hstat]; rfl)
  have hself : lookupN (updStat stats n TStat.settledOk) n = some TStat.settledOk :=
    lookupN_setN_self stats n _
  have hne : ∀ m, m ≠ n → lookupN (updStat stats n TStat.settledOk) m = lookupN stats m :=
    fun m hm => lookupN_setN_ne stats n m _ hm
  refine ⟨?_, ?_, ?_, hI.notBoth, ?_, hI.invokedNd, ?_, ?_, hI.retCorr, ?_, ?_,
    hI.iaSA, ?_, ?_⟩
  · rw [hkeys]; exact hI.keysNd
  · rw [hkeys]; exact hI.statsKeys
  · intro m hrec
    obtain ⟨st, hstm, hdone⟩ := hI.recDone m hrec
    by_cases hm : m = n
    · subst hm
      exact ⟨.settledOk, hself, rfl⟩
    · exact ⟨st, by rw [hne m hm]; exact hstm, hdone⟩
  · intro m
    rw [hI.invokedIff m]
    by_cases hm : m = n
    · subst hm
      constructor
      · rintro ⟨hc, st, hstm, hne2⟩
        exact ⟨hc, .settledOk, hself, by intro hc2; exact TStat.noConfusion hc2⟩
      · rintro ⟨hc, st, hstm, hne2⟩
        exact ⟨hc, .running b, hstat, by intro hc2; exact TStat.noConfusion hc2⟩
    · constructor
      · rintro ⟨hc, st, hstm, hne2⟩
        exact ⟨hc, st, by rw [hne m hm]; exact hstm, hne2⟩
      · rintro ⟨hc, st, hstm, hne2⟩
        rw [hne m hm] at hstm
        exact ⟨hc, st, hstm, hne2⟩
  · intro m e hm'
    by_cases hm : m = n
    · subst hm
      rw [hself] at hm'
      injection hm' with hm'
      exact TStat.noConfusion hm'
    · rw [hne m hm] at hm'
      exact hI.errStat m e hm'
  · intro hsa
    exact absurd hsa hmode
  · intro hsa
    exact absurd hsa hmode
  · intro hsa
    exact absurd hsa hmode
  · intro hfl m e hm'
    by_cases hm : m = n
    · subst hm
      rw [hself] at hm'
      injection hm' with hm'
      exact TStat.noConfusion hm'
    · rw [hne m hm] at hm'
      exact hI.errNonMarkerFlow hfl m e hm'
  · intro hns m e hm'
    have hold := hI.errStatRev hns m e hm'
    by_cases hm2 : m = n
    · subst hm2
      rw [hstat] at hold
      injection hold with hold
      exact TStat.noConfusion hold
    · rw [hne m hm2]
      exact hold

/-- Starting a not-yet-started callable task — invoking its callable and
recording the invocation — preserves the core invariant. -/
theorem InvCoreF_start {mode : Mode} {tasks : List (String × Entry)}
    {stats : List (String × TStat)} {results : List (String × Val)}
    {errors : List (String × Err)} {retObj : List (String × RVal)}
    {invoked : List String} {ia : Option (Option Err)} {ext : Option ExtState}
    (hI : InvCoreF mode tasks stats results errors retObj invoked ia ext)
    {n : String} (hstat : lookupN stats n = some .notStarted)
    {b : Body} (htask : lookupN tasks n = some (.callable b)) :
    InvCoreF mode tasks (updStat stats n (.running b)) results errors retObj
      (invoked ++ [n]) ia ext := by
  have hkeys : (updStat stats n (TStat.running b)).map Prod.fst = stats.map Prod.fst :=
    keys_setN stats n _ (by rw [hstat]; rfl)
  have hself : lookupN (updStat stats n (TStat.running b)) n = some (.running b) :=
    lookupN_setN_self stats n _
  have hne : ∀ m, m ≠ n → lookupN (updStat stats n (TStat.running b)) m = lookupN stats m :=
    fun m hm => lookupN_setN_ne stats n m _ hm
  have hnotin : n ∉ invoked := by
    intro hmem
    obtain ⟨hc, st, hstm, hne2⟩ := (hI.invokedIff n).mp hmem
    rw [hstat] at hstm
    injection hstm with hstm
    exact hne2 hstm.symm
  refine ⟨?_, ?_, ?_, hI.notBoth, ?_, ?_, ?_, ?_, hI.retCorr, ?_, ?_, hI.iaSA, ?_, ?_⟩
  · rw [hkeys]; exact hI.keysNd
  · rw [hkeys]; exact hI.statsKeys
  · intro m hrec
    obtain ⟨st, hstm, hdone⟩ := hI.recDone m hrec
    by_cases hm : m = n
    · subst hm
      rw [hstat] at hstm
      injection hstm with hstm
      rw [← hstm] at hdone
      exact absurd hdone (by simp [TStat.isDone])
    · exact ⟨st, by rw [hne m hm]; exact hstm, hdone⟩
  · intro m
    by_cases hm : m = n
    · subst hm
      constructor
      · intro _
        exact ⟨⟨b, htask⟩, .running b, hself, by intro hc2; exact TStat.noConfusion hc2⟩
      · intro _
        exact List.mem_append.mpr (Or.inr (by simp))
    · rw [List.mem_append]
      constructor
      · intro hmem
        rcases hmem with hmem | hmem
        · obtain ⟨hc, st, hstm, hne2⟩ := (hI.invokedIff m).mp hmem
          exact ⟨hc, st, by rw [hne m hm]; exact hstm, hne2⟩
        · simp at hmem
          exact absurd hmem hm
      · rintro ⟨hc, st, hstm, hne2⟩
        rw [hne m hm] at hstm
        exact Or.inl ((hI.invokedIff m).mpr ⟨hc, st, hstm, hne2⟩)
  · rw [List.nodup_append]
    refine ⟨hI.invokedNd, List.nodup_singleton n, ?_⟩
    intro a ha hb
    simp at hb
    subst hb
    exact hnotin ha
  · intro m e hm'
    by_cases hm : m = n
    · subst hm
      rw [hself] at hm'
      injection hm' with hm'
      exact TStat.noConfusion hm'
    · rw [hne m hm] at hm'
      exact hI.errStat m e hm'
  · intro hsa m e hm'
    by_cases hm : m = n
    · subst hm
      rw [hself] at hm'
      injection hm' with hm'
      exact TStat.noConfusion hm'
    · rw [hne m hm] at hm'
      exact hI.noErrStatSA hsa m e hm'
  · intro hsa m st hstm
    by_cases hm : m = n
    · subst hm
      rw [hself] at hstm
      injection hstm with hstm
      subst hstm
      constructor
      · intro hfalse
        exact absurd hfalse (by simp [TStat.isDone])
      · intro hsome
        have hthis := (hI.retDone hsa m _ hstat).mpr hsome
        simp [TStat.isDone] at hthis
    · rw [hne m hm] at hstm
      exact hI.retDone hsa m st hstm
  · intro hsa m hsome
    have h0 := hI.retKeys hsa m hsome
    rw [lookupN_isSome_iff] at h0 ⊢
    rw [hkeys]
    exact h0
  · intro hfl m e hm'
    by_cases hm : m = n
    · subst hm
      rw [hself] at hm'
      injection hm' with hm'
      exact TStat.noConfusion hm'
    · rw [hne m hm] at hm'
      exact hI.errNonMarkerFlow hfl m e hm'
  · intro hns m e hm'
    have hold := hI.errStatRev hns m e hm'
    by_cases hm2 : m = n
    · subst hm2
      rw [hstat] at hold
      injection hold with hold
      exact TStat.noConfusion hold
    · rw [hne m hm2]
      exact hold

/-- Outcome recorded only for undone tasks (`InvCoreF`-level freshness). -/
theorem InvCoreF_fresh {mode : Mode} {tasks : List (String × Entry)}
    {stats : List (String × TStat)} {results : List (String × Val)}
    {errors : List (String × Err)} {retObj : List (String × RVal)}
    {invoked : List String} {ia : Option (Option Err)} {ext : Option ExtState}
    (hI : InvCoreF mode tasks stats results errors retObj invoked ia ext)
    {name : String} {st₀ : TStat} (hstat : lookupN stats name = some st₀)
    (hnd : st₀.isDone = false) :
    lookupN results name = none ∧ lookupN errors name = none := by
  constructor
  · cases hr : lookupN results name with
    | none => rfl
    | some v =>
        obtain ⟨st', hst', hd⟩ := hI.recDone name (Or.inl (by simp [hr]))
        rw [hstat] at hst'
        injection hst' with hst'
        rw [← hst'] at hd
        rw [hd] at hnd
        cases hnd
  · cases hr : lookupN errors name with
    | none => rfl
    | some e =>
        obtain ⟨st', hst', hd⟩ := hI.recDone name (Or.inr (by simp [hr]))
        rw [hstat] at hst'
        injection hst' with hst'
        rw [← hst'] at hd
        rw [hd] at hnd
        cases hnd

/-- `handleResult` outside settle-all mode: the `returnValue` object is
unconstrained there, so it may be replaced by anything. -/
theorem InvCoreF_succeedNSA {mode : Mode} {tasks : List (String × Entry)}
    {stats : List (String × TStat)} {results : List (String × Val)}
    {errors : List (String × Err)} {retObj : List (String × RVal)}
    {invoked : List String} {ia : Option (Option Err)} {ext : Option ExtState}
    (hI : InvCoreF mode tasks stats results errors retObj invoked ia ext)
    {name : String} {b : Body} (hstat : lookupN stats name = some (.running b))
    (v : Val) (hmode : mode ≠ Mode.settleAll) (retObj' : List (String × RVal)) :
    InvCoreF mode tasks (drainOk (updStat stats name .settledOk) name v)
      (setN results name v) errors retObj' invoked ia ext := by
  obtain ⟨hfr, hfe⟩ := InvCoreF_fresh hI hstat rfl
  have hupd : (updStat stats name TStat.settledOk).map Prod.fst = stats.map Prod.fst :=
    keys_setN stats name _ (by rw [hstat]; rfl)
  have hkeys : (drainOk (updStat stats name .settledOk) name v).map Prod.fst =
      stats.map Prod.fst := by
    rw [keys_drainOk, hupd]
  have hupdSelf : lookupN (updStat stats name TStat.settledOk) name =
      some TStat.settledOk := lookupN_setN_self stats name _
  have hself : lookupN (drainOk (updStat stats name .settledOk) name v) name =
      some .settledOk := by
    rw [lookupN_drainOk, hupdSelf]
    rfl
  have hOther : ∀ m, m ≠ name →
      lookupN (drainOk (updStat stats name .settledOk) name v) m =
        (lookupN stats m).map (resumeOk name v) := by
    intro m hm
    have h2 : lookupN (updStat stats name TStat.settledOk) m = lookupN stats m :=
      lookupN_setN_ne stats name m _ hm
    rw [lookupN_drainOk, h2]
  refine ⟨?_, ?_, ?_, ?_, ?_, hI.invokedNd, ?_, ?_, ?_, ?_, ?_, hI.iaSA, ?_, ?_⟩
  · rw [hkeys]; exact hI.keysNd
  · rw [hkeys]; exact hI.statsKeys
  · intro m hrec
    by_cases hm : m = name
    · subst hm
      exact ⟨.settledOk, hself, rfl⟩
    · rw [lookupN_setN_ne results name m v hm] at hrec
      obtain ⟨st, hstm, hdone⟩ := hI.recDone m hrec
      exact ⟨resumeOk name v st, by rw [hOther m hm, hstm]; rfl,
        by rw [resumeOk_isDone]; exact hdone⟩
  · intro m
    by_cases hm : m = name
    · subst hm
      exact Or.inr hfe
    · rw [lookupN_setN_ne results name m v hm]
      exact hI.notBoth m
  · intro m
    rw [hI.invokedIff m]
    by_cases hm : m = name
    · subst hm
      constructor
      · rintro ⟨hc, st, hstm, hne2⟩
        exact ⟨hc, .settledOk, hself, by intro hc2; exact TStat.noConfusion hc2⟩
      · rintro ⟨hc, st, hstm, hne2⟩
        exact ⟨hc, .running b, hstat, by intro hc2; exact TStat.noConfusion hc2⟩
    · constructor
      · rintro ⟨hc, st, hstm, hne2⟩
        refine ⟨hc, resumeOk name v st, by rw [hOther m hm, hstm]; rfl, ?_⟩
        intro hc2
        exact hne2 ((resumeOk_notStarted_iff name v st).mp hc2)
      · rintro ⟨hc, st, hstm, hne2⟩
        rw [hOther m hm] at hstm
        obtain ⟨st0, hst0, heq⟩ := Option.map_eq_some'.mp hstm
        refine ⟨hc, st0, hst0, ?_⟩
        intro hc2
        apply hne2
        rw [← heq, hc2]
        rfl
  · intro m e hm'
    by_cases hm : m = name
    · subst hm
      rw [hself] at hm'
      injection hm' with hm'
      exact TStat.noConfusion hm'
    · rw [hOther m hm] at hm'
      obtain ⟨st0, hst0, heq⟩ := Option.map_eq_some'.mp hm'
      have hst0e := (resumeOk_settledErr_iff name v st0 e).mp heq
      subst hst0e
      exact hI.errStat m e hst0
  · intro hsa
    exact absurd hsa hmode
  · intro hsa
    exact absurd hsa hmode
  · intro hsa
    exact absurd hsa hmode
  · intro hsa
    exact absurd hsa hmode
  · intro hfl m e hm'
    by_cases hm : m = name
    · subst hm
      rw [hself] at hm'
      injection hm' with hm'
      exact TStat.noConfusion hm'
    · rw [hOther m hm] at hm'
      obtain ⟨st0, hst0, heq⟩ := Option.map_eq_some'.mp hm'
      have hst0e := (resumeOk_settledErr_iff name v st0 e).mp heq
      subst hst0e
      exact hI.errNonMarkerFlow hfl m e hst0
  · intro hns m e hm'
    have hold := hI.errStatRev hns m e hm'
    by_cases hm2 : m = name
    · subst hm2
      rw [hstat] at hold
      injection hold with hold
      exact TStat.noConfusion hold
    · rw [hOther m hm2, hold]
      rfl

/-- `handleResult` under settle-all: additionally appends the
`{status: 'fulfilled', value}` descriptor to the `returnValue` object. -/
theorem InvCoreF_succeedSA {tasks : List (String × Entry)}
    {stats : List (String × TStat)} {results : List (String × Val)}
    {errors : List (String × Err)} {retObj : List (String × RVal)}
    {invoked : List String} {ia : Option (Option Err)} {ext : Option ExtState}
    (hI : InvCoreF .settleAll tasks stats results errors retObj invoked ia ext)
    {name : String} {b : Body} (hstat : lookupN stats name = some (.running b))
    (v : Val) :
    InvCoreF .settleAll tasks (drainOk (updStat stats name .settledOk) name v)
      (setN results name v) errors (retObj ++ [(name, RVal.fulfilled v)])
      invoked ia ext := by
  obtain ⟨hfr, hfe⟩ := InvCoreF_fresh hI hstat rfl
  have hretfresh : lookupN retObj name = none := by
    cases hro : lookupN retObj name with
    | none => rfl
    | some rv =>
        have := (hI.retDone rfl name _ hstat).mpr (by rw [hro]; rfl)
        simp [TStat.isDone] at this
  have hretSelf : lookupN (retObj ++ [(name, RVal.fulfilled v)]) name =
      some (RVal.fulfilled v) := by
    rw [lookupN_append_none _ hretfresh]
    simp [lookupN]
  have hupd : (updStat stats name TStat.settledOk).map Prod.fst = stats.map Prod.fst :=
    keys_setN stats name _ (by rw [hstat]; rfl)
  have hkeys : (drainOk (updStat stats name .settledOk) name v).map Prod.fst =
      stats.map Prod.fst := by
    rw [keys_drainOk, hupd]
  have hupdSelf : lookupN (updStat stats name TStat.settledOk) name =
      some TStat.settledOk := lookupN_setN_self stats name _
  have hself : lookupN (drainOk (updStat stats name .settledOk) name v) name =
      some .settledOk := by
    rw [lookupN_drainOk, hupdSelf]
    rfl
  have hOther : ∀ m, m ≠ name →
      lookupN (drainOk (updStat stats name .settledOk) name v) m =
        (lookupN stats m).map (resumeOk name v) := by
    intro m hm
    have h2 : lookupN (updStat stats name TStat.settledOk) m = lookupN stats m :=
      lookupN_setN_ne stats name m _ hm
    rw [lookupN_drainOk, h2]
  refine ⟨?_, ?_, ?_, ?_, ?_, hI.invokedNd, ?_, ?_, ?_, ?_, ?_, hI.iaSA, ?_, ?_⟩
  · rw [hkeys]; exact hI.keysNd
  · rw [hkeys]; exact hI.statsKeys
  · intro m hrec
    by_cases hm : m = name
    · subst hm
      exact ⟨.settledOk, hself, rfl⟩
    · rw [lookupN_setN_ne results name m v hm] at hrec
      obtain ⟨st, hstm, hdone⟩ := hI.recDone m hrec
      exact ⟨resumeOk name v st, by rw [hOther m hm, hstm]; rfl,
        by rw [resumeOk_isDone]; exact hdone⟩
  · intro m
    by_cases hm : m = name
    · subst hm
      exact Or.inr hfe
    · rw [lookupN_setN_ne results name m v hm]
      exact hI.notBoth m
  · intro m
    rw [hI.invokedIff m]
    by_cases hm : m = name
    · subst hm
      constructor
      · rintro ⟨hc, st, hstm, hne2⟩
        exact ⟨hc, .settledOk, hself, by intro hc2; exact TStat.noConfusion hc2⟩
      · rintro ⟨hc, st, hstm, hne2⟩
        exact ⟨hc, .running b, hstat, by intro hc2; exact TStat.noConfusion hc2⟩
    · constructor
      · rintro ⟨hc, st, hstm, hne2⟩
        refine ⟨hc, resumeOk name v st, by rw [hOther m hm, hstm]; rfl, ?_⟩
        intro hc2
        exact hne2 ((resumeOk_notStarted_iff name v st).mp hc2)
      · rintro ⟨hc, st, hstm, hne2⟩
        rw [hOther m hm] at hstm
        obtain ⟨st0, hst0, heq⟩ := Option.map_eq_some'.mp hstm
        refine ⟨hc, st0, hst0, ?_⟩
        intro hc2
        apply hne2
        rw [← heq, hc2]
        rfl
  · intro m e hm'
    by_cases hm : m = name
    · subst hm
      rw [hself] at hm'
      injection hm' with hm'
      exact TStat.noConfusion hm'
    · rw [hOther m hm] at hm'
      obtain ⟨st0, hst0, heq⟩ := Option.map_eq_some'.mp hm'
      have hst0e := (resumeOk_settledErr_iff name v st0 e).mp heq
      subst hst0e
      exact hI.errStat m e hst0
  · intro _ m e hm'
    by_cases hm : m = name
    · subst hm
      rw [hself] at hm'
      injection hm' with hm'
      exact TStat.noConfusion hm'
    · rw [hOther m hm] at hm'
      obtain ⟨st0, hst0, heq⟩ := Option.map_eq_some'.mp hm'
      have hst0e := (resumeOk_settledErr_iff name v st0 e).mp heq
      subst hst0e
      exact hI.noErrStatSA rfl m e hst0
  · intro _ m rv hrv
    by_cases hm : m = name
    · subst hm
      rw [hretSelf] at hrv
      injection hrv with hrv
      exact Or.inl ⟨v, hrv.symm, lookupN_setN_self results m v⟩
    · rw [lookupN_append_single_ne retObj _ hm] at hrv
      rcases hI.retCorr rfl m rv hrv with ⟨v', hv', hres⟩ | ⟨e', he', herr⟩
      · exact Or.inl ⟨v', hv', by rw [lookupN_setN_ne results name m v hm]; exact hres⟩
      · exact Or.inr ⟨e', he', herr⟩
  · intro _ m st hstm
    by_cases hm : m = name
    · subst hm
      rw [hself] at hstm
      injection hstm with hstm
      subst hstm
      constructor
      · intro _
        rw [hretSelf]
        rfl
      · intro _
        rfl
    · rw [hOther m hm] at hstm
      obtain ⟨st0, hst0, heq⟩ := Option.map_eq_some'.mp hstm
      rw [← heq, resumeOk_isDone, lookupN_append_single_ne retObj _ hm]
      exact hI.retDone rfl m st0 hst0
  · intro _ m hsome
    by_cases hm : m = name
    · subst hm
      rw [hself]
      rfl
    · rw [lookupN_append_single_ne retObj _ hm] at hsome
      have h0 := hI.retKeys rfl m hsome
      rw [hOther m hm]
      cases hx : lookupN stats m with
      | none => rw [hx] at h0; cases h0
      | some st0 => rfl
  · intro hfl
    cases hfl
  · intro hns m e hm'
    have hold := hI.errStatRev hns m e hm'
    by_cases hm2 : m = name
    · subst hm2
      rw [hstat] at hold
      injection hold with hold
      exact TStat.noConfusion hold
    · rw [hOther m hm2, hold]
      rfl

/-- `handleError` outside settle-all mode (fail-fast and flow): the task's
wrapper promise rejects with the same error object, waiters are rejected,
and the `returnValue` object and internal-controller state are
unconstrained by the core invariant in these modes. -/
theorem InvCoreF_failNSA {mode : Mode} {tasks : List (String × Entry)}
    {stats : List (String × TStat)} {results : List (String × Val)}
    {errors : List (String × Err)} {retObj : List (String × RVal)}
    {invoked : List String} {ia : Option (Option Err)} {ext : Option ExtState}
    (hI : InvCoreF mode tasks stats results errors retObj invoked ia ext)
    {name : String} {st₀ : TStat} (hstat : lookupN stats name = some st₀)
    (hnd : st₀.isDone = false)
    (hnc : st₀ = TStat.notStarted → lookupN tasks name = some .notCallable)
    {e : Err} (hmk : mode = .flow → e.isMarker = false)
    (hmode : mode ≠ Mode.settleAll) (retObj' : List (String × RVal))
    (ia' : Option (Option Err)) :
    InvCoreF mode tasks (drainErr (updStat stats name (.settledErr e)) name e)
      results (setN errors name e) retObj' invoked ia' ext := by
  obtain ⟨hfr, hfe⟩ := InvCoreF_fresh hI hstat hnd
  have hupd : (updStat stats name (TStat.settledErr e)).map Prod.fst = stats.map Prod.fst :=
    keys_setN stats name _ (by rw [hstat]; rfl)
  have hkeys : (drainErr (updStat stats name (.settledErr e)) name e).map Prod.fst =
      stats.map Prod.fst := by
    rw [keys_drainErr, hupd]
  have hupdSelf : lookupN (updStat stats name (TStat.settledErr e)) name =
      some (TStat.settledErr e) := lookupN_setN_self stats name _
  have hself : lookupN (drainErr (updStat stats name (.settledErr e)) name e) name =
      some (.settledErr e) := by
    rw [lookupN_drainErr, hupdSelf]
    rfl
  have hOther : ∀ m, m ≠ name →
      lookupN (drainErr (updStat stats name (.settledErr e)) name e) m =
        (lookupN stats m).map (resumeErr name e) := by
    intro m hm
    have h2 : lookupN (updStat stats name (TStat.settledErr e)) m = lookupN stats m :=
      lookupN_setN_ne stats name m _ hm
    rw [lookupN_drainErr, h2]
  refine ⟨?_, ?_, ?_, ?_, ?_, hI.invokedNd, ?_, ?_, ?_, ?_, ?_, ?_, ?_, ?_⟩
  · rw [hkeys]; exact hI.keysNd
  · rw [hkeys]; exact hI.statsKeys
  · intro m hrec
    by_cases hm : m = name
    · subst hm
      exact ⟨.settledErr e, hself, rfl⟩
    · rw [lookupN_setN_ne errors name m e hm] at hrec
      obtain ⟨st, hstm, hdone⟩ := hI.recDone m hrec
      exact ⟨resumeErr name e st, by rw [hOther m hm, hstm]; rfl,
        by rw [resumeErr_isDone]; exact hdone⟩
  · intro m
    by_cases hm : m = name
    · subst hm
      exact Or.inl hfr
    · rw [lookupN_setN_ne errors name m e hm]
      exact hI.notBoth m
  · intro m
    rw [hI.invokedIff m]
    by_cases hm : m = name
    · subst hm
      constructor
      · rintro ⟨hc, st, hstm, hne2⟩
        exact ⟨hc, .settledErr e, hself, by intro hc2; exact TStat.noConfusion hc2⟩
      · rintro ⟨hc, st, hstm, hne2⟩
        by_cases hst0 : st₀ = TStat.notStarted
        · obtain ⟨b', hb'⟩ := hc
          rw [hnc hst0] at hb'
          injection hb' with hb'
          exact Entry.noConfusion hb'
        · exact ⟨hc, st₀, hstat, hst0⟩
    · constructor
      · rintro ⟨hc, st, hstm, hne2⟩
        refine ⟨hc, resumeErr name e st, by rw [hOther m hm, hstm]; rfl, ?_⟩
        intro hc2
        exact hne2 ((resumeErr_notStarted_iff name e st).mp hc2)
      · rintro ⟨hc, st, hstm, hne2⟩
        rw [hOther m hm] at hstm
        obtain ⟨st0, hst0, heq⟩ := Option.map_eq_some'.mp hstm
        refine ⟨hc, st0, hst0, ?_⟩
        intro hc2
        apply hne2
        rw [← heq, hc2]
        rfl
  · intro m e' hm'
    by_cases hm : m = name
    · subst hm
      rw [hself] at hm'
      injection hm' with hm'
      injection hm' with hm'
      rw [lookupN_setN_self, hm']
    · rw [hOther m hm] at hm'
      obtain ⟨st0, hst0, heq⟩ := Option.map_eq_some'.mp hm'
      have hst0e := (resumeErr_settledErr_iff name e st0 e').mp heq
      subst hst0e
      rw [lookupN_setN_ne errors name m e hm]
      exact hI.errStat m e' hst0
  · intro hsa
    exact absurd hsa hmode
  · intro hsa
    exact absurd hsa hmode
  · intro hsa
    exact absurd hsa hmode
  · intro hsa
    exact absurd hsa hmode
  · intro hsa
    exact absurd hsa hmode
  · intro hfl m e' hm'
    by_cases hm : m = name
    · subst hm
      rw [hself] at hm'
      injection hm' with hm'
      injection hm' with hm'
      rw [← hm']
      exact hmk hfl
    · rw [hOther m hm] at hm'
      obtain ⟨st0, hst0, heq⟩ := Option.map_eq_some'.mp hm'
      have hst0e := (resumeErr_settledErr_iff name e st0 e').mp heq
      subst hst0e
      exact hI.errNonMarkerFlow hfl m e' hst0
  · intro hns m e' hm'
    by_cases hm2 : m = name
    · subst hm2
      rw [lookupN_setN_self] at hm'
      injection hm' with hm'
      rw [← hm']
      exact hself
    · rw [lookupN_setN_ne errors name m e hm2] at hm'
      have hold := hI.errStatRev hns m e' hm'
      rw [hOther m hm2, hold]
      rfl

/-- `handleError` under settle-all: the wrapper promise fulfills, the
rejected descriptor is appended to the `returnValue` object, and the
internal controller is untouched. -/
theorem InvCoreF_failSA {tasks : List (String × Entry)}
    {stats : List (String × TStat)} {results : List (String × Val)}
    {errors : List (String × Err)} {retObj : List (String × RVal)}
    {invoked : List String} {ia : Option (Option Err)} {ext : Option ExtState}
    (hI : InvCoreF .settleAll tasks stats results errors retObj invoked ia ext)
    {name : String} {st₀ : TStat} (hstat : lookupN stats name = some st₀)
    (hnd : st₀.isDone = false)
    (hnc : st₀ = TStat.notStarted → lookupN tasks name = some .notCallable)
    (e : Err) :
    InvCoreF .settleAll tasks (drainErr (updStat stats name .settledOk) name e)
      results (setN errors name e) (retObj ++ [(name, RVal.rejected e)])
      invoked ia ext := by
  obtain ⟨hfr, hfe⟩ := InvCoreF_fresh hI hstat hnd
  have hretfresh : lookupN retObj name = none := by
    cases hro : lookupN retObj name with
    | none => rfl
    | some rv =>
        have hdn := (hI.retDone rfl name _ hstat).mpr (by rw [hro]; rfl)
        rw [hdn] at hnd
        cases hnd
  have hretSelf : lookupN (retObj ++ [(name, RVal.rejected e)]) name =
      some (RVal.rejected e) := by
    rw [lookupN_append_none _ hretfresh]
    simp [lookupN]
  have hupd : (updStat stats name TStat.settledOk).map Prod.fst = stats.map Prod.fst :=
    keys_setN stats name _ (by rw [hstat]; rfl)
  have hkeys : (drainErr (updStat stats name .settledOk) name e).map Prod.fst =
      stats.map Prod.fst := by
    rw [keys_drainErr, hupd]
  have hupdSelf : lookupN (updStat stats name TStat.settledOk) name =
      some TStat.settledOk := lookupN_setN_self stats name _
  have hself : lookupN (drainErr (updStat stats name .settledOk) name e) name =
      some .settledOk := by
    rw [lookupN_drainErr, hupdSelf]
    rfl
  have hOther : ∀ m, m ≠ name →
      lookupN (drainErr (updStat stats name .settledOk) name e) m =
        (lookupN stats m).map (resumeErr name e) := by
    intro m hm
    have h2 : lookupN (updStat stats name TStat.settledOk) m = lookupN stats m :=
      lookupN_setN_ne stats name m _ hm
    rw [lookupN_drainErr, h2]
  refine ⟨?_, ?_, ?_, ?_, ?_, hI.invokedNd, ?_, ?_, ?_, ?_, ?_, hI.iaSA, ?_, ?_⟩
  · rw [hkeys]; exact hI.keysNd
  · rw [hkeys]; exact hI.statsKeys
  · intro m hrec
    by_cases hm : m = name
    · subst hm
      exact ⟨.settledOk, hself, rfl⟩
    · rw [lookupN_setN_ne errors name m e hm] at hrec
      obtain ⟨st, hstm, hdone⟩ := hI.recDone m hrec
      exact ⟨resumeErr name e st, by rw [hOther m hm, hstm]; rfl,
        by rw [resumeErr_isDone]; exact hdone⟩
  · intro m
    by_cases hm : m = name
    · subst hm
      exact Or.inl hfr
    · rw [lookupN_setN_ne errors name m e hm]
      exact hI.notBoth m
  · intro m
    rw [hI.invokedIff m]
    by_cases hm : m = name
    · subst hm
      constructor
      · rintro ⟨hc, st, hstm, hne2⟩
        exact ⟨hc, .settledOk, hself, by intro hc2; exact TStat.noConfusion hc2⟩
      · rintro ⟨hc, st, hstm, hne2⟩
        by_cases hst0 : st₀ = TStat.notStarted
        · obtain ⟨b', hb'⟩ := hc
          rw [hnc hst0] at hb'
          injection hb' with hb'
          exact Entry.noConfusion hb'
        · exact ⟨hc, st₀, hstat, hst0⟩
    · constructor
      · rintro ⟨hc, st, hstm, hne2⟩
        refine ⟨hc, resumeErr name e st, by rw [hOther m hm, hstm]; rfl, ?_⟩
        intro hc2
        exact hne2 ((resumeErr_notStarted_iff name e st).mp hc2)
      · rintro ⟨hc, st, hstm, hne2⟩
        rw [hOther m hm] at hstm
        obtain ⟨st0, hst0, heq⟩ := Option.map_eq_some'.mp hstm
        refine ⟨hc, st0, hst0, ?_⟩
        intro hc2
        apply hne2
        rw [← heq, hc2]
        rfl
  · intro m e' hm'
    by_cases hm : m = name
    · subst hm
      rw [hself] at hm'
      injection hm' with hm'
      exact TStat.noConfusion hm'
    · rw [hOther m hm] at hm'
      obtain ⟨st0, hst0, heq⟩ := Option.map_eq_some'.mp hm'
      have hst0e := (resumeErr_settledErr_iff name e st0 e').mp heq
      subst hst0e
      rw [lookupN_setN_ne errors name m e hm]
      exact hI.errStat m e' hst0
  · intro _ m e' hm'
    by_cases hm : m = name
    · subst hm
      rw [hself] at hm'
      injection hm' with hm'
      exact TStat.noConfusion hm'
    · rw [hOther m hm] at hm'
      obtain ⟨st0, hst0, heq⟩ := Option.map_eq_some'.mp hm'
      have hst0e := (resumeErr_settledErr_iff name e st0 e').mp heq
      subst hst0e
      exact hI.noErrStatSA rfl m e' hst0
  · intro _ m rv hrv
    by_cases hm : m = name
    · subst hm
      rw [hretSelf] at hrv
      injection hrv with hrv
      exact Or.inr ⟨e, hrv.symm, lookupN_setN_self errors m e⟩
    · rw [lookupN_append_single_ne retObj _ hm] at hrv
      rcases hI.retCorr rfl m rv hrv with ⟨v', hv', hres⟩ | ⟨e', he', herr⟩
      · exact Or.inl ⟨v', hv', hres⟩
      · exact Or.inr ⟨e', he', by rw [lookupN_setN_ne errors name m e hm]; exact herr⟩
  · intro _ m st hstm
    by_cases hm : m = name
    · subst hm
      rw [hself] at hstm
      injection hstm with hstm
      subst hstm
      constructor
      · intro _
        rw [hretSelf]
        rfl
      · intro _
        rfl
    · rw [hOther m hm] at hstm
      obtain ⟨st0, hst0, heq⟩ := Option.map_eq_some'.mp hstm
      rw [← heq, resumeErr_isDone, lookupN_append_single_ne retObj _ hm]
      exact hI.retDone rfl m st0 hst0
  · intro _ m hsome
    by_cases hm : m = name
    · subst hm
      rw [hself]
      rfl
    · rw [lookupN_append_single_ne retObj _ hm] at hsome
      have h0 := hI.retKeys rfl m hsome
      rw [hOther m hm]
      cases hx : lookupN stats m with
      | none => rw [hx] at h0; cases h0
      | some st0 => rfl
  · intro hfl
    cases hfl
  · intro hns
    exact absurd rfl hns

/-- `handleResult` preserves the core invariant. -/
theorem InvCore_succeed {s : EngineState} (hI : InvCore s) {name : String} {b : Body}
    (hstat : lookupN s.stats name = some (.running b)) (v : Val) :
    InvCore (succeed s name v) := by
  have hI' : InvCoreF s.mode s.tasks s.stats s.results s.errors s.retObj s.invoked
      s.internalAborted s.ext := hI
  show InvCoreF s.mode s.tasks
      (drainOk (updStat s.stats name .settledOk) name v)
      (setN s.results name v) s.errors
      (match s.mode with
       | .settleAll => s.retObj ++ [(name, RVal.fulfilled v)]
       | .failFast => s.retObj ++ [(name, RVal.plain v)]
       | .flow => s.retObj)
      s.invoked s.internalAborted s.ext
  cases hmode : s.mode with
  | settleAll =>
      rw [hmode] at hI'
      exact InvCoreF_succeedSA hI' hstat v
  | failFast =>
      rw [hmode] at hI'
      exact InvCoreF_succeedNSA hI' hstat v (by intro hc; cases hc) _
  | flow =>
      rw [hmode] at hI'
      exact InvCoreF_succeedNSA hI' hstat v (by intro hc; cases hc) _

/-- `handleError` (with the mode-dependent wrapper settlement and internal
abort of lines 395-400) preserves the core invariant. -/
theorem InvCore_failT {s : EngineState} (hI : InvCore s) {name : String} {st₀ : TStat}
    (hstat : lookupN s.stats name = some st₀) (hnd : st₀.isDone = false)
    (hnc : st₀ = TStat.notStarted → lookupN s.tasks name = some .notCallable)
    {e : Err} (hmk : s.mode = .flow → e.isMarker = false) :
    InvCore (failT s name e) := by
  have hI' : InvCoreF s.mode s.tasks s.stats s.results s.errors s.retObj s.invoked
      s.internalAborted s.ext := hI
  show InvCoreF s.mode s.tasks
      (drainErr
        (updStat s.stats name
          (match s.mode with
           | .settleAll => .settledOk
           | _ => .settledErr e)) name e)
      s.results (setN s.errors name e)
      (match s.mode with
       | .settleAll => s.retObj ++ [(name, RVal.rejected e)]
       | _ => s.retObj)
      s.invoked
      (match s.mode with
       | .settleAll => s.internalAborted
       | _ => match s.internalAborted with
              | none => some (some e)
              | some r => some r)
      s.ext
  cases hmode : s.mode with
  | settleAll =>
      rw [hmode] at hI'
      exact InvCoreF_failSA hI' hstat hnd hnc e
  | failFast =>
      rw [hmode] at hI'
      exact InvCoreF_failNSA hI' hstat hnd hnc (by intro hfl; cases hfl)
        (by intro hc; cases hc) _ _
  | flow =>
      rw [hmode] at hI'
      exact InvCoreF_failNSA hI' hstat hnd hnc (fun _ => hmk hmode)
        (by intro hc; cases hc) _ _

/-- One task step preserves the core invariant. -/
theorem InvCore_stepTask {s : EngineState} (hI : InvCore s) (n : String) :
    InvCore (stepTask s n) := by
  unfold stepTask
  split
  next hst => exact hI
  next hst =>
      split
      next ht => exact hI
      next ht => exact InvCore_failT hI hst rfl (fun _ => ht) (fun _ => rfl)
      next b ht => exact InvCoreF_start hI hst ht
  next b hst =>
      split
      next v => exact InvCore_succeed hI hst v
      next e =>
          split
          next hc =>
              exact InvCoreF_settledOk_upd hI hst (by rw [hc.1]; intro h2; cases h2)
          next hc =>
              refine InvCore_failT hI hst rfl (fun hns => absurd hns ?_) ?_
              · intro h2
                exact TStat.noConfusion h2
              · intro hfl
                cases hmm : e.isMarker with
                | true => exact absurd (by exact ⟨hfl, hmm⟩) hc
                | false => rfl
      next dep onOk onErr =>
          split
          next h1 =>
              exact InvCoreF_pure_upd hI hst _ (fun h2 => TStat.noConfusion h2) rfl
                (fun e' h2 => TStat.noConfusion h2)
          next h1 =>
              split
              next h2 =>
                  exact InvCoreF_pure_upd hI hst _ (fun h3 => TStat.noConfusion h3) rfl
                    (fun e' h3 => TStat.noConfusion h3)
              next h2 =>
                  split
                  next v hr =>
                      exact InvCoreF_pure_upd hI hst _ (fun h3 => TStat.noConfusion h3) rfl
                        (fun e' h3 => TStat.noConfusion h3)
                  next hr =>
                      split
                      next e he =>
                          exact InvCoreF_pure_upd hI hst _ (fun h3 => TStat.noConfusion h3)
                            rfl (fun e' h3 => TStat.noConfusion h3)
                      next he =>
                          exact InvCoreF_pure_upd hI hst _ (fun h3 => TStat.noConfusion h3)
                            rfl (fun e' h3 => TStat.noConfusion h3)
      next v =>
          split
          next hf =>
              split
              next hfe =>
                  exact InvCoreF_settledOk_upd hI hst (by rw [hf]; intro h2; cases h2)
              next hfe =>
                  exact InvCoreF_settledOk_upd hI hst (by rw [hf]; intro h2; cases h2)
          next hf => exact hI
      next k =>
          exact InvCoreF_pure_upd hI hst _ (fun h2 => TStat.noConfusion h2) rfl
            (fun e' h2 => TStat.noConfusion h2)
  next dep onOk onErr hst => exact hI
  next hst => exact hI
  next e hst => exact hI

/-- An external-signal abort preserves the core invariant. -/
theorem InvCore_doExtAbort {s : EngineState} (hI : InvCore s) (r : Option Err) :
    InvCore (doExtAbort s r) := by
  have hI' : InvCoreF s.mode s.tasks s.stats s.results s.errors s.retObj s.invoked
      s.internalAborted s.ext := hI
  unfold doExtAbort
  cases hext : s.ext with
  | none => exact hI
  | some est =>
      cases est with
      | abortedW r' => exact hI
      | notAborted =>
          refine ⟨hI'.keysNd, hI'.statsKeys, hI'.recDone, hI'.notBoth, hI'.invokedIff,
            hI'.invokedNd, hI'.errStat, hI'.noErrStatSA, hI'.retCorr, hI'.retDone,
            hI'.retKeys, ?_, hI'.errNonMarkerFlow, hI'.errStatRev⟩
          intro hsa r₀ hia
          by_cases hcd : s.cleanupDone = true
          · rw [if_pos hcd] at hia
            have hx := hI'.iaSA hsa r₀ hia
            rw [hext] at hx
            injection hx with hx
            exact ExtState.noConfusion hx
          · rw [if_neg hcd] at hia
            cases hia0 : s.internalAborted with
            | none =>
                rw [hia0] at hia
                injection hia with hia
                rw [hia]
            | some r' =>
                rw [hia0] at hia
                have hx := hI'.iaSA hsa r' hia0
                rw [hext] at hx
                injection hx with hx
                exact ExtState.noConfusion hx

/-- Settlement of the combined promise preserves the core invariant. -/
theorem InvCore_settleCombined {s : EngineState} (hI : InvCore s) :
    InvCore (settleCombined s) := by
  rcases settleCombined_spec s with ⟨h, -⟩ | ⟨o, -, -, h⟩
  · rw [h]; exact hI
  · rw [h]; exact hI

/-- One engine step preserves the core invariant. -/
theorem InvCore_step {s : EngineState} (hI : InvCore s) (c : Choice) :
    InvCore (step s c) := by
  cases c with
  | task n => exact InvCore_settleCombined (InvCore_stepTask hI n)
  | extAbort r => exact InvCore_settleCombined (InvCore_doExtAbort hI r)

/-- Any schedule preserves the core invariant. -/
theorem InvCore_run {s : EngineState} (hI : InvCore s) (cs : List Choice) :
    InvCore (run s cs) := by
  induction cs generalizing s with
  | nil => exact hI
  | cons c cs ih => exact ih (InvCore_step hI c)

/-- The state at entry of `executeTasksInternal` satisfies the core
invariant, provided the task names are distinct (as JavaScript object
keys are). -/
theorem InvCore_initBase (mode : Mode) (tasks : List (String × Entry))
    (ext : Option ExtState) (hnd : (tasks.map Prod.fst).Nodup) :
    InvCore (initBase mode tasks ext) := by
  show InvCoreF mode tasks (tasks.map (fun p => (p.1, TStat.notStarted))) [] [] [] []
      (match ext with | some (.abortedW r) => some r | _ => none) ext
  have hlookAll : ∀ n, lookupN (tasks.map (fun p => (p.1, TStat.notStarted))) n =
      (lookupN tasks n).map (fun _ => TStat.notStarted) :=
    fun n => lookupN_mapSnd tasks (fun _ => TStat.notStarted) n
  have hlook : ∀ n st,
      lookupN (tasks.map (fun p => (p.1, TStat.notStarted))) n = some st →
      st = TStat.notStarted := by
    intro n st h
    rw [hlookAll n] at h
    cases hx : lookupN tasks n with
    | none => rw [hx] at h; cases h
    | some ent =>
        rw [hx] at h
        injection h with h
        exact h.symm
  have hkeys : (tasks.map (fun p => (p.1, TStat.notStarted))).map Prod.fst =
      tasks.map Prod.fst := keys_mapSnd tasks (fun _ => TStat.notStarted)
  refine ⟨?_, hkeys, ?_, ?_, ?_, List.nodup_nil, ?_, ?_, ?_, ?_, ?_, ?_, ?_, ?_⟩
  · rw [hkeys]; exact hnd
  · intro n hrec
    simp [lookupN] at hrec
  · intro n
    exact Or.inl rfl
  · intro n
    constructor
    · intro h
      exact absurd h (List.not_mem_nil n)
    · rintro ⟨hc, st, hst, hne2⟩
      exact absurd (hlook n st hst) hne2
  · intro n e h
    exact TStat.noConfusion (hlook n _ h)
  · intro _ n e h
    exact TStat.noConfusion (hlook n _ h)
  · intro _ n rv h
    simp [lookupN] at h
  · intro _ n st hst
    rw [hlook n st hst]
    simp [TStat.isDone, lookupN]
  · intro _ n h
    simp [lookupN] at h
  · intro hsa r hia
    cases hext : ext with
    | none => rw [hext] at hia; cases hia
    | some est =>
        cases est with
        | notAborted => rw [hext] at hia; cases hia
        | abortedW r' =>
            rw [hext] at hia
            injection hia with hia
            rw [hia]
  · intro _ n e h
    exact TStat.noConfusion (hlook n _ h)
  · intro _ n e h
    simp [lookupN] at h

/-- What one task step can do to the `errors` map: leave it unchanged, or
record one error for a task whose wrapper promise had not yet settled. -/
theorem stepTask_errors_char (s : EngineState) (n : String) :
    (stepTask s n).errors = s.errors ∨
    ∃ e st₀, lookupN s.stats n = some st₀ ∧ st₀.isDone = false ∧
      (stepTask s n).errors = setN s.errors n e := by
  unfold stepTask
  split
  next hst => exact Or.inl rfl
  next hst =>
      split
      next ht => exact Or.inl rfl
      next ht => exact Or.inr ⟨.notAFunction n, .notStarted, hst, rfl, rfl⟩
      next b ht => exact Or.inl rfl
  next b hst =>
      split
      next v => exact Or.inl rfl
      next e =>
          split
          next hc => exact Or.inl rfl
          next hc => exact Or.inr ⟨e, _, hst, rfl, rfl⟩
      next dep onOk onErr =>
          split
          next h1 => exact Or.inl rfl
          next h1 =>
              split
              next h2 => exact Or.inl rfl
              next h2 =>
                  split
                  next v hr => exact Or.inl rfl
                  next hr =>
                      split
                      next e he => exact Or.inl rfl
                      next he => exact Or.inl rfl
      next v =>
          split
          next hf =>
              split
              next hfe => exact Or.inl rfl
              next hfe => exact Or.inl rfl
          next hf => exact Or.inl rfl
      next k => exact Or.inl rfl
  next dep onOk onErr hst => exact Or.inl rfl
  next hst => exact Or.inl rfl
  next e hst => exact Or.inl rfl

/-- What one task step can do to the `results` map: leave it unchanged, or
record the value of a task that was running. -/
theorem stepTask_results_char (s : EngineState) (n : String) :
    (stepTask s n).results = s.results ∨
    ∃ v b, lookupN s.stats n = some (.running b) ∧
      (stepTask s n).results = setN s.results n v := by
  unfold stepTask
  split
  next hst => exact Or.inl rfl
  next hst =>
      split
      next ht => exact Or.inl rfl
      next ht => exact Or.inl rfl
      next b ht => exact Or.inl rfl
  next b hst =>
      split
      next v => exact Or.inr ⟨v, _, hst, rfl⟩
      next e =>
          split
          next hc => exact Or.inl rfl
          next hc => exact Or.inl rfl
      next dep onOk onErr =>
          split
          next h1 => exact Or.inl rfl
          next h1 =>
              split
              next h2 => exact Or.inl rfl
              next h2 =>
                  split
                  next v hr => exact Or.inl rfl
                  next hr =>
                      split
                      next e he => exact Or.inl rfl
                      next he => exact Or.inl rfl
      next v =>
          split
          next hf =>
              split
              next hfe => exact Or.inl rfl
              next hfe => exact Or.inl rfl
          next hf => exact Or.inl rfl
      next k => exact Or.inl rfl
  next dep onOk onErr hst => exact Or.inl rfl
  next hst => exact Or.inl rfl
  next e hst => exact Or.inl rfl

/-- A recorded error survives any engine step unchanged. -/
theorem step_errors_mono {s : EngineState} (hI : InvCore s) (c : Choice) {m : String}
    {e : Err} (h : lookupN s.errors m = some e) :
    lookupN (step s c).errors m = some e := by
  cases c with
  | task n =>
      rw [step_task_eq, settleCombined_errors]
      rcases stepTask_errors_char s n with hch | ⟨e', st₀, hst, hnd2, hch⟩
      · rw [hch]; exact h
      · rw [hch]
        have hfe : lookupN s.errors n = none := (InvCoreF_fresh hI hst hnd2).2
        have hm : m ≠ n := by
          intro hc
          rw [hc, hfe] at h
          cases h
        rw [lookupN_setN_ne s.errors n m e' hm]
        exact h
  | extAbort r =>
      rw [step_extAbort_eq, settleCombined_errors, doExtAbort_errors]
      exact h

/-- A recorded value survives any engine step unchanged. -/
theorem step_results_mono {s : EngineState} (hI : InvCore s) (c : Choice) {m : String}
    {v : Val} (h : lookupN s.results m = some v) :
    lookupN (step s c).results m = some v := by
  cases c with
  | task n =>
      rw [step_task_eq, settleCombined_results]
      rcases stepTask_results_char s n with hch | ⟨v', b, hst, hch⟩
      · rw [hch]; exact h
      · rw [hch]
        have hfr : lookupN s.results n = none := (InvCoreF_fresh hI hst rfl).1
        have hm : m ≠ n := by
          intro hc
          rw [hc, hfr] at h
          cases h
        rw [lookupN_setN_ne s.results n m v' hm]
        exact h
  | extAbort r =>
      rw [step_extAbort_eq, settleCombined_results, doExtAbort_results]
      exact h

/-- A recorded error survives any schedule unchanged. -/
theorem run_errors_mono {s : EngineState} (hI : InvCore s) (cs : List Choice)
    {m : String} {e : Err} (h : lookupN s.errors m = some e) :
    lookupN (run s cs).errors m = some e := by
  induction cs generalizing s with
  | nil => exact h
  | cons c cs ih => exact ih (InvCore_step hI c) (step_errors_mono hI c h)

/-- A recorded value survives any schedule unchanged. -/
theorem run_results_mono {s : EngineState} (hI : InvCore s) (cs : List Choice)
    {m : String} {v : Val} (h : lookupN s.results m = some v) :
    lookupN (run s cs).results m = some v := by
  induction cs generalizing s with
  | nil => exact h
  | cons c cs ih => exact ih (InvCore_step hI c) (step_results_mono hI c h)

/-- The initial state satisfies the core invariant. -/
theorem InvCore_init (mode : Mode) (tasks : List (String × Entry))
    (ext : Option ExtState) (hnd : (tasks.map Prod.fst).Nodup) :
    InvCore (initState mode tasks ext) :=
  InvCore_settleCombined (InvCore_initBase mode tasks ext hnd)

/-! ## Properties of the combined promise -/

/-- Invariants of the combined promise's settlement state:

* `combDone`: the combined promise settles only once every wrapper
  promise has settled — except that under fail-fast it may instead be an
  early rejection (`Promise.all` reacting to the first wrapper
  rejection);
* `ffErrWitness`: a fail-fast rejection reason is the recorded error of
  some task, propagated by identity;
* `combNotErrSA`: under settle-all the combined promise never rejects;
* `combObjSA`: under settle-all it resolves with exactly the accumulated
  `returnValue` object;
* `combFlowVal`: under flow it resolves with the first `$end` value, or
  `undefined` when no task ended the flow;
* `settledP`: if the combined promise is unsettled, no combinator is
  ready to fire (settlement is never missed). -/
structure CombProps (s : EngineState) : Prop where
  combDone : s.combined ≠ none →
      allDone s = true ∨ (s.mode = .failFast ∧ ∃ e, s.combined = some (.error e))
  ffErrWitness : s.mode = .failFast → ∀ e, s.combined = some (.error e) →
      ∃ n, lookupN s.errors n = some e
  combNotErrSA : s.mode = .settleAll → ∀ e, s.combined ≠ some (.error e)
  combObjSA : s.mode = .settleAll → ∀ x, s.combined = some (.ok x) → x = Ret.obj s.retObj
  combFlowVal : s.mode = .flow → ∀ v, s.combined = some (.ok (.flowVal v)) →
      v = (if s.flowEnded = true then s.flowEndValue else Val.undef)
  settledP : s.combined = none → combinedNow s = none
  combOkNoErrFlow : s.mode = .flow → ∀ x, s.combined = some (.ok x) →
      firstWrapperErr s = none

/-- Transport of the combined-promise properties along a step that keeps
the settled combined promise and all fields it constrains. -/
theorem CombProps_congr {s t : EngineState} (hC : CombProps s)
    (hmode : t.mode = s.mode) (hstats : t.stats = s.stats)
    (herr : t.errors = s.errors) (hret : t.retObj = s.retObj)
    (hfe : t.flowEnded = s.flowEnded) (hfv : t.flowEndValue = s.flowEndValue)
    (hcomb : t.combined = s.combined) (hne : t.combined ≠ none) :
    CombProps t := by
  refine ⟨?_, ?_, ?_, ?_, ?_, ?_, ?_⟩
  · intro _
    rcases hC.combDone (by rw [hcomb] at hne; exact hne) with hd | ⟨hm, e, hce⟩
    · left
      rw [allDone_congr hstats]
      exact hd
    · right
      exact ⟨by rw [hmode]; exact hm, e, by rw [hcomb]; exact hce⟩
  · intro hff e hce
    rw [hmode] at hff
    rw [hcomb] at hce
    obtain ⟨m, hm2⟩ := hC.ffErrWitness hff e hce
    exact ⟨m, by rw [herr]; exact hm2⟩
  · intro hsa e hce
    rw [hmode] at hsa
    rw [hcomb] at hce
    exact hC.combNotErrSA hsa e hce
  · intro hsa x hce
    rw [hmode] at hsa
    rw [hcomb] at hce
    rw [hret]
    exact hC.combObjSA hsa x hce
  · intro hfl v hce
    rw [hmode] at hfl
    rw [hcomb] at hce
    rw [hfe, hfv]
    exact hC.combFlowVal hfl v hce
  · intro hc
    exact absurd hc hne
  · intro hfl x hce
    rw [hmode] at hfl
    rw [hcomb] at hce
    rw [firstWrapperErr_congr hstats]
    exact hC.combOkNoErrFlow hfl x hce

/-- Letting the combinator react on an unsettled combined promise yields
all combined-promise properties. -/
theorem CombProps_settle (t : EngineState) (hIt : InvCore t)
    (h0 : t.combined = none) : CombProps (settleCombined t) := by
  rcases settleCombined_spec t with ⟨heq, hnone⟩ | ⟨o, -, hcn, heq⟩
  · rw [heq]
    refine ⟨?_, ?_, ?_, ?_, ?_, ?_, ?_⟩
    · intro hc
      exact absurd h0 hc
    · intro _ e hc
      rw [h0] at hc
      cases hc
    · intro _ e hc
      rw [h0] at hc
      cases hc
    · intro _ x hc
      rw [h0] at hc
      cases hc
    · intro _ v hc
      rw [h0] at hc
      cases hc
    · intro _
      exact hnone h0
    · intro _ x hc
      rw [h0] at hc
      cases hc
  · rcases combinedNow_some_spec hcn with
      ⟨hm, e, hf, ho⟩ | ⟨hm, hd, ho⟩ | ⟨hm, hd, ho⟩ | ⟨hm, hd, hflow⟩
    · rw [heq]
      refine ⟨?_, ?_, ?_, ?_, ?_, ?_, ?_⟩
      · intro _
        exact Or.inr ⟨hm, e, by rw [ho]⟩
      · intro _ e' hce
        injection hce with hce
        rw [ho] at hce
        injection hce with hce
        obtain ⟨m0, hmem⟩ := firstWrapperErr_some hf
        have hl := mem_lookupN hIt.keysNd hmem
        have he := hIt.errStat m0 e hl
        exact ⟨m0, by rw [hce] at he; exact he⟩
      · intro hsa
        rw [hm] at hsa
        cases hsa
      · intro hsa
        rw [hm] at hsa
        cases hsa
      · intro hfl
        rw [hm] at hfl
        cases hfl
      · intro hc
        cases hc
      · intro hfl
        rw [hm] at hfl
        cases hfl
    · rw [heq]
      refine ⟨?_, ?_, ?_, ?_, ?_, ?_, ?_⟩
      · intro _
        exact Or.inl hd
      · intro _ e hce
        injection hce with hce
        rw [ho] at hce
        exact Except.noConfusion hce
      · intro hsa
        rw [hm] at hsa
        cases hsa
      · intro hsa
        rw [hm] at hsa
        cases hsa
      · intro hfl
        rw [hm] at hfl
        cases hfl
      · intro hc
        cases hc
      · intro hfl
        rw [hm] at hfl
        cases hfl
    · rw [heq]
      refine ⟨?_, ?_, ?_, ?_, ?_, ?_, ?_⟩
      · intro _
        exact Or.inl hd
      · intro hff
        rw [hm] at hff
        cases hff
      · intro _ e hce
        injection hce with hce
        rw [ho] at hce
        exact Except.noConfusion hce
      · intro _ x hce
        injection hce with hce
        rw [ho] at hce
        injection hce with hce
        exact hce.symm
      · intro hfl
        rw [hm] at hfl
        cases hfl
      · intro hc
        cases hc
      · intro hfl
        rw [hm] at hfl
        cases hfl
    · rw [heq]
      refine ⟨?_, ?_, ?_, ?_, ?_, ?_, ?_⟩
      · intro _
        exact Or.inl hd
      · intro hff
        rw [hm] at hff
        cases hff
      · intro hsa
        rw [hm] at hsa
        cases hsa
      · intro hsa
        rw [hm] at hsa
        cases hsa
      · intro _ v hce
        injection hce with hce
        rcases hflow with ⟨r, hext, ho⟩ | ⟨e, hf, ho⟩ | ⟨hfwe, ho⟩
        · rw [ho] at hce
          exact Except.noConfusion hce
        · rw [ho] at hce
          exact Except.noConfusion hce
        · rw [ho] at hce
          injection hce with hce
          injection hce with hce
          exact hce.symm
      · intro hc
        cases hc
      · intro _ x hce
        injection hce with hce
        rcases hflow with ⟨r, hext, ho⟩ | ⟨e, hf, ho⟩ | ⟨hfwe, ho⟩
        · rw [ho] at hce
          exact Except.noConfusion hce
        · rw [ho] at hce
          exact Except.noConfusion hce
        · exact hfwe

/-- A recorded error survives one raw task step. -/
theorem stepTask_errors_mono {s : EngineState} (hI : InvCore s) (n : String)
    {m : String} {e : Err} (h : lookupN s.errors m = some e) :
    lookupN (stepTask s n).errors m = some e := by
  rcases stepTask_errors_char s n with hch | ⟨e', st₀, hst, hnd2, hch⟩
  · rw [hch]; exact h
  · rw [hch]
    have hfe : lookupN s.errors n = none := (InvCoreF_fresh hI hst hnd2).2
    have hm : m ≠ n := by
      intro hc
      rw [hc, hfe] at h
      cases h
    rw [lookupN_setN_ne s.errors n m e' hm]
    exact h

/-- One engine step preserves the combined-promise properties. -/
theorem CombProps_step {s : EngineState} (hI : InvCore s) (hC : CombProps s)
    (c : Choice) : CombProps (step s c) := by
  cases hcomb : s.combined with
  | none =>
      cases c with
      | task n =>
          rw [step_task_eq]
          exact CombProps_settle _ (InvCore_stepTask hI n)
            (by rw [stepTask_combined, hcomb])
      | extAbort r =>
          rw [step_extAbort_eq]
          exact CombProps_settle _ (InvCore_doExtAbort hI r)
            (by rw [doExtAbort_combined, hcomb])
  | some o =>
      rcases hC.combDone (by rw [hcomb]; intro hc; cases hc) with hd | ⟨hm, e, hce⟩
      · cases c with
        | task n =>
            have hid : stepTask s n = s := stepTask_of_allDone hd n
            rw [step_task_eq, hid, settleCombined_combined_some s o hcomb]
            exact hC
        | extAbort r =>
            rw [step_extAbort_eq]
            have ht : (doExtAbort s r).combined = some o := by
              rw [doExtAbort_combined, hcomb]
            rw [settleCombined_combined_some _ o ht]
            exact CombProps_congr hC (doExtAbort_mode s r) (doExtAbort_stats s r)
              (doExtAbort_errors s r) (doExtAbort_retObj s r)
              (doExtAbort_flowEnded s r) (doExtAbort_flowEndValue s r)
              (doExtAbort_combined s r) (by rw [doExtAbort_combined, hcomb]; intro hc; cases hc)
      · have hoe : o = .error e := by
          rw [hcomb] at hce
          injection hce with hce
        cases c with
        | task n =>
            rw [step_task_eq]
            have ht : (stepTask s n).combined = some o := by
              rw [stepTask_combined, hcomb]
            rw [settleCombined_combined_some _ o ht]
            refine ⟨?_, ?_, ?_, ?_, ?_, ?_, ?_⟩
            · intro _
              exact Or.inr ⟨by rw [stepTask_mode]; exact hm, e, by rw [ht, hoe]⟩
            · intro _ e' hce2
              rw [ht, hoe] at hce2
              injection hce2 with hce2
              injection hce2 with hce2
              obtain ⟨m0, hm0⟩ := hC.ffErrWitness hm e hce
              exact ⟨m0, by rw [← hce2]; exact stepTask_errors_mono hI n hm0⟩
            · intro hsa
              rw [stepTask_mode, hm] at hsa
              cases hsa
            · intro hsa
              rw [stepTask_mode, hm] at hsa
              cases hsa
            · intro hfl
              rw [stepTask_mode, hm] at hfl
              cases hfl
            · intro hc
              rw [ht] at hc
              cases hc
            · intro hfl
              rw [stepTask_mode, hm] at hfl
              cases hfl
        | extAbort r =>
            rw [step_extAbort_eq]
            have ht : (doExtAbort s r).combined = some o := by
              rw [doExtAbort_combined, hcomb]
            rw [settleCombined_combined_some _ o ht]
            exact CombProps_congr hC (doExtAbort_mode s r) (doExtAbort_stats s r)
              (doExtAbort_errors s r) (doExtAbort_retObj s r)
              (doExtAbort_flowEnded s r) (doExtAbort_flowEndValue s r)
              (doExtAbort_combined s r)
              (by rw [doExtAbort_combined, hcomb]; intro hc; cases hc)

/-- The full engine invariant. -/
def EngineInv (s : EngineState) : Prop :=
  InvCore s ∧ CombProps s

theorem EngineInv_step {s : EngineState} (hI : EngineInv s) (c : Choice) : EngineInv (step s c) :=
  ⟨InvCore_step hI.1 c, CombProps_step hI.1 hI.2 c⟩

theorem EngineInv_run {s : EngineState} (hI : EngineInv s) (cs : List Choice) : EngineInv (run s cs) := by
  induction cs generalizing s with
  | nil => exact hI
  | cons c cs ih => exact ih (EngineInv_step hI c)

theorem EngineInv_init (mode : Mode) (tasks : List (String × Entry))
    (ext : Option ExtState) (hnd : (tasks.map Prod.fst).Nodup) :
    EngineInv (initState mode tasks ext) :=
  ⟨InvCore_init mode tasks ext hnd,
   CombProps_settle _ (InvCore_initBase mode tasks ext hnd) rfl⟩

theorem EngineInv_runFrom (mode : Mode) (tasks : List (String × Entry))
    (ext : Option ExtState) (cs : List Choice) (hnd : (tasks.map Prod.fst).Nodup) :
    EngineInv (runFrom mode tasks ext cs) :=
  EngineInv_run (EngineInv_init mode tasks ext hnd) cs

/-! ## Step equations and further utility lemmas -/

instance : DecidableEq (Except Err Ret)
  | .error a, .error b =>
      match decEq a b with
      | isTrue h => isTrue (by rw [h])
      | isFalse h => isFalse (fun hc => h (by injection hc))
  | .error a, .ok b => isFalse (fun hc => Except.noConfusion hc)
  | .ok a, .error b => isFalse (fun hc => Except.noConfusion hc)
  | .ok a, .ok b =>
      match decEq a b with
      | isTrue h => isTrue (by rw [h])
      | isFalse h => isFalse (fun hc => h (by injection hc))

theorem runFrom_mode (mode : Mode) (tasks : List (String × Entry))
    (ext : Option ExtState) (cs : List Choice) :
    (runFrom mode tasks ext cs).mode = mode := by
  unfold runFrom initState
  rw [run_mode, settleCombined_mode]
  rfl

theorem runFrom_tasks (mode : Mode) (tasks : List (String × Entry))
    (ext : Option ExtState) (cs : List Choice) :
    (runFrom mode tasks ext cs).tasks = tasks := by
  unfold runFrom initState
  rw [run_tasks, settleCombined_tasks]
  rfl

/-- A settled combined promise keeps its outcome across a step. -/
theorem step_combined_some {s : EngineState} {o : Except Err Ret}
    (h : s.combined = some o) (c : Choice) : (step s c).combined = some o := by
  cases c with
  | task n =>
      rw [step_task_eq]
      have ht : (stepTask s n).combined = some o := by rw [stepTask_combined, h]
      rw [settleCombined_combined_some _ o ht]
      exact ht
  | extAbort r =>
      rw [step_extAbort_eq]
      have ht : (doExtAbort s r).combined = some o := by rw [doExtAbort_combined, h]
      rw [settleCombined_combined_some _ o ht]
      exact ht

/-- A settled combined promise keeps its outcome across a schedule. -/
theorem run_combined_some {s : EngineState} {o : Except Err Ret}
    (h : s.combined = some o) (cs : List Choice) : (run s cs).combined = some o := by
  induction cs generalizing s with
  | nil => exact h
  | cons c cs ih => exact ih (step_combined_some h c)

/-- Once every wrapper promise has settled, the combinator fires. -/
theorem combinedNow_ne_none_of_allDone {s : EngineState} (hd : allDone s = true) :
    combinedNow s ≠ none := by
  unfold combinedNow
  split
  · split
    · intro hc
      cases hc
    · rw [if_pos hd]
      intro hc
      cases hc
  · rw [if_pos hd]
    intro hc
    cases hc
  · rw [if_pos hd]
    intro hc
    cases hc

/-- A state whose combinator has nothing to do is a fixed point of
`settleCombined`. -/
theorem settleCombined_id {s : EngineState} (h1 : combinedNow s = none) :
    settleCombined s = s := by
  rcases settleCombined_spec s with ⟨heq, -⟩ | ⟨o, -, hcn, -⟩
  · exact heq
  · rw [h1] at hcn
    cases hcn

theorem stepTask_none {s : EngineState} {n : String}
    (h : lookupN s.stats n = none) : stepTask s n = s := by
  unfold stepTask
  rw [h]

theorem stepTask_blocked {s : EngineState} {n dep : String} {onOk : Val → Body}
    {onErr : Err → Body} (h : lookupN s.stats n = some (.blocked dep onOk onErr)) :
    stepTask s n = s := by
  unfold stepTask
  rw [h]

theorem stepTask_settledOk {s : EngineState} {n : String}
    (h : lookupN s.stats n = some .settledOk) : stepTask s n = s := by
  unfold stepTask
  rw [h]

theorem stepTask_settledErr {s : EngineState} {n : String} {e : Err}
    (h : lookupN s.stats n = some (.settledErr e)) : stepTask s n = s := by
  unfold stepTask
  rw [h]

theorem stepTask_ret {s : EngineState} {n : String} {v : Val}
    (h : lookupN s.stats n = some (.running (.ret v))) :
    stepTask s n = succeed s n v := by
  unfold stepTask
  rw [h]

theorem stepTask_notCallable {s : EngineState} {n : String}
    (h : lookupN s.stats n = some .notStarted)
    (ht : lookupN s.tasks n = some .notCallable) :
    stepTask s n = failT s n (.notAFunction n) := by
  unfold stepTask
  rw [h]
  show (match lookupN s.tasks n with
    | none => s
    | some .notCallable => failT s n (.notAFunction n)
    | some (.callable b) =>
        { s with
          stats := updStat s.stats n (.running b)
          invoked := s.invoked ++ [n] }) = _
  rw [ht]

theorem stepTask_start {s : EngineState} {n : String} {b : Body}
    (h : lookupN s.stats n = some .notStarted)
    (ht : lookupN s.tasks n = some (.callable b)) :
    stepTask s n =
      { s with
        stats := updStat s.stats n (.running b)
        invoked := s.invoked ++ [n] } := by
  unfold stepTask
  rw [h]
  show (match lookupN s.tasks n with
    | none => s
    | some .notCallable => failT s n (.notAFunction n)
    | some (.callable b) =>
        { s with
          stats := updStat s.stats n (.running b)
          invoked := s.invoked ++ [n] }) = _
  rw [ht]

theorem stepTask_readSignal {s : EngineState} {n : String} {k : Bool → Option Err → Body}
    (h : lookupN s.stats n = some (.running (.readSignal k))) :
    stepTask s n =
      { s with
        stats := updStat s.stats n
          (.running (k s.internalAborted.isSome
            (match s.internalAborted with | some r => r | none => none))) } := by
  unfold stepTask
  rw [h]

theorem stepTask_throwE_eq {s : EngineState} {n : String} {e : Err}
    (h : lookupN s.stats n = some (.running (.throwE e))) :
    stepTask s n =
      (if s.mode = .flow ∧ e.isMarker = true then
        { s with stats := updStat s.stats n .settledOk }
      else failT s n e) := by
  unfold stepTask
  rw [h]

theorem stepTask_awaitDep_eq {s : EngineState} {n dep : String} {onOk : Val → Body}
    {onErr : Err → Body}
    (h : lookupN s.stats n = some (.running (.awaitDep dep onOk onErr))) :
    stepTask s n =
      (if (lookupN s.tasks dep).isNone = true then
        { s with stats := updStat s.stats n (.running (onErr (.unknownTask dep))) }
      else if s.mode = .flow ∧ s.flowEnded = true then
        { s with stats := updStat s.stats n (.running (onErr .flowAborted)) }
      else
        match lookupN s.results dep with
        | some v => { s with stats := updStat s.stats n (.running (onOk v)) }
        | none =>
            match lookupN s.errors dep with
            | some e => { s with stats := updStat s.stats n (.running (onErr e)) }
            | none => { s with stats := updStat s.stats n (.blocked dep onOk onErr) }) := by
  unfold stepTask
  rw [h]

theorem stepTask_endFlow_eq {s : EngineState} {n : String} {v : Val}
    (h : lookupN s.stats n = some (.running (.endFlow v))) :
    stepTask s n =
      (if s.mode = .flow then
        if s.flowEnded = true then { s with stats := updStat s.stats n .settledOk }
        else
          { s with
            flowEnded := true
            flowEndValue := v
            stats := updStat s.stats n .settledOk }
      else s) := by
  unfold stepTask
  rw [h]

/-- A dependency lookup of a name absent from the task set resumes the
requesting task immediately with the unknown-task error. -/
theorem stepTask_awaitDep_unknown {s : EngineState} {n dep : String}
    {onOk : Val → Body} {onErr : Err → Body}
    (h : lookupN s.stats n = some (.running (.awaitDep dep onOk onErr)))
    (hu : (lookupN s.tasks dep).isNone = true) :
    stepTask s n =
      { s with stats := updStat s.stats n (.running (onErr (.unknownTask dep))) } := by
  rw [stepTask_awaitDep_eq h, hu, if_pos rfl]

/-- A dependency lookup on a settled producer resumes with the recorded
value. -/
theorem stepTask_awaitDep_ok {s : EngineState} {n dep : String} {onOk : Val → Body}
    {onErr : Err → Body} {v : Val}
    (h : lookupN s.stats n = some (.running (.awaitDep dep onOk onErr)))
    (hkn : (lookupN s.tasks dep).isNone = false)
    (hnf : ¬(s.mode = .flow ∧ s.flowEnded = true))
    (hres : lookupN s.results dep = some v) :
    stepTask s n = { s with stats := updStat s.stats n (.running (onOk v)) } := by
  rw [stepTask_awaitDep_eq h, hkn, if_neg Bool.false_ne_true, if_neg hnf, hres]

/-- A dependency lookup on a rejected producer resumes with the recorded
error. -/
theorem stepTask_awaitDep_err {s : EngineState} {n dep : String} {onOk : Val → Body}
    {onErr : Err → Body} {e : Err}
    (h : lookupN s.stats n = some (.running (.awaitDep dep onOk onErr)))
    (hkn : (lookupN s.tasks dep).isNone = false)
    (hnf : ¬(s.mode = .flow ∧ s.flowEnded = true))
    (hres : lookupN s.results dep = none)
    (herr : lookupN s.errors dep = some e) :
    stepTask s n = { s with stats := updStat s.stats n (.running (onErr e)) } := by
  rw [stepTask_awaitDep_eq h, hkn, if_neg Bool.false_ne_true, if_neg hnf, hres, herr]

/-- After the flow has ended, a dependency lookup fails immediately with
the flow-aborted marker. -/
theorem stepTask_awaitDep_flowEnded {s : EngineState} {n dep : String}
    {onOk : Val → Body} {onErr : Err → Body}
    (h : lookupN s.stats n = some (.running (.awaitDep dep onOk onErr)))
    (hkn : (lookupN s.tasks dep).isNone = false)
    (hf : s.mode = .flow ∧ s.flowEnded = true) :
    stepTask s n =
      { s with stats := updStat s.stats n (.running (onErr .flowAborted)) } := by
  rw [stepTask_awaitDep_eq h, hkn, if_neg Bool.false_ne_true, if_pos hf]

/-! ## The claims -/

/-- Task set for the C3 counterexample: task `a` throws immediately
(`user 1`), task `b` awaits its own name and therefore never settles
(`await this.$.b` registers a waiter that is never resolved). -/
def C3tasks : List (String × Entry) :=
  [("a", .callable (.throwE (.user 1))),
   ("b", .callable (.awaitDep "b" Body.ret Body.throwE))]

/-- The schedule the JavaScript microtask queue produces for `C3tasks`:
both wrappers start, `a` throws and `Promise.all` reacts, `b` suspends. -/
def C3sched : List Choice :=
  [.task "a", .task "b", .task "a", .task "b"]

/-- C3 (counterexample): under `all` (fail-fast), the combined promise is
already rejected with task `a`'s error while task `b`'s asynchronous
activity has not concluded — `Promise.all(promises)` (line 433) rejects
on the first wrapper rejection without waiting for the remaining
wrappers, so the claimed "never rejects while some task is still
pending" is false on the code. -/
theorem C3_counterexample :
    (runFrom .failFast C3tasks none C3sched).combined = some (.error (.user 1)) ∧
    allDone (runFrom .failFast C3tasks none C3sched) = false ∧
    (lookupN (runFrom .failFast C3tasks none C3sched).stats "b").map TStat.kind =
      some (.blocked "b") := by
  exact ⟨by decide, by decide, by decide⟩

/-- C3 (amended): resolution of the combined promise — in every mode —
only happens once every task's wrapper promise has settled, and under
settle-all and flow even rejection waits for universal settlement; only
under fail-fast may the combined promise reject earlier, while tasks are
still pending. -/
theorem C3_settles_after_conclusion (mode : Mode) (tasks : List (String × Entry))
    (ext : Option ExtState) (cs : List Choice)
    (hnd : (tasks.map Prod.fst).Nodup) :
    ((mode = .settleAll ∨ mode = .flow) →
      (runFrom mode tasks ext cs).combined ≠ none →
      allDone (runFrom mode tasks ext cs) = true) ∧
    (mode = .failFast → ∀ x, (runFrom mode tasks ext cs).combined = some (.ok x) →
      allDone (runFrom mode tasks ext cs) = true) := by
  obtain ⟨hIC, hCP⟩ := EngineInv_runFrom mode tasks ext cs hnd
  have hmode := runFrom_mode mode tasks ext cs
  constructor
  · intro hm hne
    rcases hCP.combDone hne with hd | ⟨hff, e, hce⟩
    · exact hd
    · rw [hmode] at hff
      rcases hm with hm | hm <;> rw [hm] at hff <;> cases hff
  · intro hm x hce
    rcases hCP.combDone (by rw [hce]; intro hc; cases hc) with hd | ⟨hff, e, hce2⟩
    · exact hd
    · rw [hce] at hce2
      injection hce2 with hce2
      exact Except.noConfusion hce2

/-- Task set for the C3 witness under settle-all: both tasks settle, one
by throwing, so the combined promise genuinely settles. -/
def C3tasksW : List (String × Entry) :=
  [("a", .callable (.throwE (.user 1))),
   ("b", .callable (.ret (.num 2)))]

/-- Task set for the C3 witness under fail-fast: the single task
fulfills, so the combined promise genuinely resolves. -/
def C3tasksOk : List (String × Entry) :=
  [("b", .callable (.ret (.num 2)))]

def C3schedOk : List Choice := [.task "b", .task "b"]

/-- Witness for the amended C3 at concrete inputs where the combined
promise actually settles: under settle-all with `{a: throws, b: returns}`
the combined promise is settled, and the theorem's first conjunct yields
that every wrapper has indeed settled; under fail-fast with a fulfilling
task the combined promise is resolved, and the second conjunct yields
universal settlement as well. -/
theorem C3_settles_after_conclusion_witness :
    (runFrom .settleAll C3tasksW none C3sched).combined ≠ none ∧
    allDone (runFrom .settleAll C3tasksW none C3sched) = true ∧
    (runFrom .failFast C3tasksOk none C3schedOk).combined =
      some (.ok (.obj [("b", .plain (.num 2))])) ∧
    allDone (runFrom .failFast C3tasksOk none C3schedOk) = true := by
  refine ⟨by decide, ?_, by decide, ?_⟩
  · exact (C3_settles_after_conclusion .settleAll C3tasksW none C3sched
      (by decide)).1 (Or.inl rfl) (by decide)
  · exact (C3_settles_after_conclusion .failFast C3tasksOk none C3schedOk
      (by decide)).2 rfl (.obj [("b", .plain (.num 2))]) (by decide)

/-- Task set for the C5 demonstration: task `a` looks up the nonexistent
sibling `zzz` and does not catch the failure; task `b` is independent. -/
def C5tasks : List (String × Entry) :=
  [("a", .callable (.awaitDep "zzz" Body.ret Body.throwE)),
   ("b", .callable (.ret (.num 2)))]

def C5sched : List Choice :=
  [.task "a", .task "a", .task "a", .task "b", .task "b"]

/-- C5: a dependency lookup for a name not in the task set resumes the
requesting task at once with the unknown-task error naming that name
(`waitForDep`, lines 221-223) — it neither blocks the requester nor
touches any other task's state — and sibling tasks that do not depend on
the missing name still complete normally with their own outcomes (shown
on a concrete settle-all run where `b` fulfills with `2` while `a` is
rejected with the unknown-task error). -/
theorem C5_unknown_dependency :
    (∀ (s : EngineState) (n dep : String) (onOk : Val → Body) (onErr : Err → Body),
      lookupN s.stats n = some (.running (.awaitDep dep onOk onErr)) →
      (lookupN s.tasks dep).isNone = true →
      lookupN (stepTask s n).stats n =
        some (.running (onErr (.unknownTask dep))) ∧
      (stepTask s n).results = s.results ∧
      (stepTask s n).errors = s.errors ∧
      (∀ m, m ≠ n → lookupN (stepTask s n).stats m = lookupN s.stats m)) ∧
    (runFrom .settleAll C5tasks none C5sched).combined =
      some (.ok (.obj [("a", .rejected (.unknownTask "zzz")),
                       ("b", .fulfilled (.num 2))])) := by
  constructor
  · intro s n dep onOk onErr hstat hu
    rw [stepTask_awaitDep_unknown hstat hu]
    refine ⟨lookupN_setN_self _ _ _, rfl, rfl, ?_⟩
    intro m hm
    exact lookupN_setN_ne _ _ _ _ hm
  · decide

/-- Witness for C5: the general part applied at a concrete state — the
state of the demonstration run right after task `a` has started — with
both hypotheses discharged by evaluation. -/
theorem C5_unknown_dependency_witness :
    (lookupN (run (initState .settleAll C5tasks none) [.task "a"]).stats "a" =
      some (.running (.awaitDep "zzz" Body.ret Body.throwE))) ∧
    ((lookupN (run (initState .settleAll C5tasks none) [.task "a"]).tasks "zzz").isNone
      = true) ∧
    lookupN
      (stepTask (run (initState .settleAll C5tasks none) [.task "a"]) "a").stats "a" =
      some (.running (Body.throwE (.unknownTask "zzz"))) :=
  ⟨rfl, by decide,
   (C5_unknown_dependency.1
     (run (initState .settleAll C5tasks none) [.task "a"]) "a" "zzz"
     Body.ret Body.throwE rfl (by decide)).1⟩

/-- Task set for the C6 demonstration: entry `a` is not callable, task
`b` is an ordinary task. -/
def C6tasks : List (String × Entry) :=
  [("a", .notCallable), ("b", .callable (.ret (.num 2)))]

def C6sched : List Choice :=
  [.task "a", .task "b", .task "b"]

/-- C6: starting a task whose entry is not callable records, for that
task only, the descriptive `` Error(`Task "${name}" is not a function`) ``
identifying the task name (lines 313-315); it leaves every other task's
state and recorded outcomes untouched, so the other tasks still run to
their own outcomes — demonstrated on a concrete settle-all run where `a`
is rejected with the not-a-function error and `b` fulfills with `2`. -/
theorem C6_not_callable :
    (∀ (s : EngineState) (n : String),
      lookupN s.stats n = some .notStarted →
      lookupN s.tasks n = some .notCallable →
      lookupN (stepTask s n).errors n = some (.notAFunction n) ∧
      (stepTask s n).results = s.results ∧
      (∀ m b', m ≠ n → lookupN s.stats m = some (.running b') →
        lookupN (stepTask s n).stats m = some (.running b')) ∧
      (∀ m, m ≠ n → lookupN (stepTask s n).errors m = lookupN s.errors m)) ∧
    (runFrom .settleAll C6tasks none C6sched).combined =
      some (.ok (.obj [("a", .rejected (.notAFunction "a")),
                       ("b", .fulfilled (.num 2))])) := by
  constructor
  · intro s n hstat htask
    rw [stepTask_notCallable hstat htask]
    refine ⟨?_, rfl, ?_, ?_⟩
    · exact lookupN_setN_self _ _ _
    · intro m b' hm hstm
      show lookupN (drainErr (updStat s.stats n _) n _) m = _
      have h2 : lookupN (updStat s.stats n
          (match s.mode with | .settleAll => TStat.settledOk | _ => .settledErr (.notAFunction n))) m =
          lookupN s.stats m := lookupN_setN_ne _ _ _ _ hm
      rw [lookupN_drainErr, h2, hstm]
      rfl
    · intro m hm
      exact lookupN_setN_ne _ _ _ _ hm
  · decide

/-- Witness for C6: the general part applied at the initial state of the
demonstration run, hypotheses discharged by evaluation. -/
theorem C6_not_callable_witness :
    (lookupN (initState .settleAll C6tasks none).stats "a" = some .notStarted) ∧
    (lookupN (initState .settleAll C6tasks none).tasks "a" = some .notCallable) ∧
    lookupN (stepTask (initState .settleAll C6tasks none) "a").errors "a" =
      some (.notAFunction "a") :=
  ⟨rfl, rfl,
   (C6_not_callable.1 (initState .settleAll C6tasks none) "a" rfl rfl).1⟩

/-- C4: under `allSettled` the combined promise never rejects, whatever
the tasks do; and once every task's wrapper promise has settled it
resolves with the `returnValue` object holding one descriptor per task —
`{status: 'fulfilled', value}` with the task's recorded value, or
`{status: 'rejected', reason}` with the task's recorded error. -/
theorem C4_allSettled_never_rejects (tasks : List (String × Entry))
    (ext : Option ExtState) (cs : List Choice)
    (hnd : (tasks.map Prod.fst).Nodup) :
    (∀ e, (runFrom .settleAll tasks ext cs).combined ≠ some (.error e)) ∧
    (allDone (runFrom .settleAll tasks ext cs) = true →
      ∃ m, (runFrom .settleAll tasks ext cs).combined = some (.ok (.obj m)) ∧
        ∀ n, n ∈ tasks.map Prod.fst →
          ∃ rv, lookupN m n = some rv ∧
            ((∃ v, rv = RVal.fulfilled v ∧
                lookupN (runFrom .settleAll tasks ext cs).results n = some v) ∨
             (∃ e, rv = RVal.rejected e ∧
                lookupN (runFrom .settleAll tasks ext cs).errors n = some e))) := by
  obtain ⟨hIC, hCP⟩ := EngineInv_runFrom .settleAll tasks ext cs hnd
  have hmode := runFrom_mode .settleAll tasks ext cs
  constructor
  · exact fun e => hCP.combNotErrSA hmode e
  · intro hd
    have hsome : (runFrom .settleAll tasks ext cs).combined ≠ none := by
      intro h0
      exact combinedNow_ne_none_of_allDone hd (hCP.settledP h0)
    cases hco : (runFrom .settleAll tasks ext cs).combined with
    | none => exact absurd hco hsome
    | some o =>
        cases o with
        | error e => exact absurd hco (hCP.combNotErrSA hmode e)
        | ok x =>
            have hx := hCP.combObjSA hmode x hco
            subst hx
            refine ⟨(runFrom .settleAll tasks ext cs).retObj, rfl, ?_⟩
            intro n hn
            have hkeys := hIC.statsKeys
            rw [runFrom_tasks .settleAll tasks ext cs] at hkeys
            have hmem : n ∈ (runFrom .settleAll tasks ext cs).stats.map Prod.fst := by
              rw [hkeys]
              exact hn
            rw [← lookupN_isSome_iff] at hmem
            cases hst : lookupN (runFrom .settleAll tasks ext cs).stats n with
            | none => rw [hst] at hmem; cases hmem
            | some st =>
                have hdone : st.isDone = true := allDone_lookup hd hst
                have hsome2 := (hIC.retDone hmode n st hst).mp hdone
                cases hro : lookupN (runFrom .settleAll tasks ext cs).retObj n with
                | none => rw [hro] at hsome2; cases hsome2
                | some rv =>
                    exact ⟨rv, rfl, hIC.retCorr hmode n rv hro⟩

/-- Task set for the C4 witness: one fulfilled and one rejected task. -/
def C4tasks : List (String × Entry) :=
  [("a", .callable (.ret (.num 1))), ("b", .callable (.throwE (.user 1)))]

def C4sched : List Choice :=
  [.task "a", .task "a", .task "b", .task "b"]

/-- Witness for C4 at a concrete input, hypotheses discharged by
evaluation. -/
theorem C4_allSettled_never_rejects_witness :
    ((C4tasks.map Prod.fst).Nodup) ∧
    ((∀ e, (runFrom .settleAll C4tasks none C4sched).combined ≠ some (.error e)) ∧
    (allDone (runFrom .settleAll C4tasks none C4sched) = true →
      ∃ m, (runFrom .settleAll C4tasks none C4sched).combined = some (.ok (.obj m)) ∧
        ∀ n, n ∈ C4tasks.map Prod.fst →
          ∃ rv, lookupN m n = some rv ∧
            ((∃ v, rv = RVal.fulfilled v ∧
                lookupN (runFrom .settleAll C4tasks none C4sched).results n = some v) ∨
             (∃ e, rv = RVal.rejected e ∧
                lookupN (runFrom .settleAll C4tasks none C4sched).errors n = some e)))) :=
  ⟨by decide, C4_allSettled_never_rejects C4tasks none C4sched (by decide)⟩

/-- C2: under `all` (fail-fast) — (1) once the combined promise has
settled, its outcome never changes, so later task failures cannot alter
the rejection reason; (2) while the combined promise is unsettled no
task error has been recorded at all, so the rejecting error is the error
of the first task to fail; (3) the rejection reason is propagated by
identity: it is exactly the error value recorded for some task; and
(4) a task that fails after the combined promise already rejected still
gets its own error recorded, with the combined outcome unchanged. -/
theorem C2_fail_fast_first_error (tasks : List (String × Entry))
    (ext : Option ExtState) (cs more : List Choice)
    (hnd : (tasks.map Prod.fst).Nodup) :
    (∀ o, (runFrom .failFast tasks ext cs).combined = some o →
      (runFrom .failFast tasks ext (cs ++ more)).combined = some o) ∧
    ((runFrom .failFast tasks ext cs).combined = none →
      (runFrom .failFast tasks ext cs).errors = []) ∧
    (∀ e, (runFrom .failFast tasks ext cs).combined = some (.error e) →
      ∃ n, lookupN (runFrom .failFast tasks ext cs).errors n = some e) ∧
    (∀ n e' o, lookupN (runFrom .failFast tasks ext cs).stats n =
        some (.running (.throwE e')) →
      (runFrom .failFast tasks ext cs).combined = some o →
      lookupN (step (runFrom .failFast tasks ext cs) (.task n)).errors n = some e' ∧
      (step (runFrom .failFast tasks ext cs) (.task n)).combined = some o) := by
  obtain ⟨hIC, hCP⟩ := EngineInv_runFrom .failFast tasks ext cs hnd
  have hmode := runFrom_mode .failFast tasks ext cs
  refine ⟨?_, ?_, ?_, ?_⟩
  · intro o ho
    rw [runFrom, run_append]
    exact run_combined_some ho more
  · intro h0
    cases herr : (runFrom .failFast tasks ext cs).errors with
    | nil => rfl
    | cons p rest =>
        obtain ⟨k, e0⟩ := p
        have hl : lookupN (runFrom .failFast tasks ext cs).errors k = some e0 := by
          rw [herr]
          simp [lookupN]
        have hstat := hIC.errStatRev (by rw [hmode]; intro hc; cases hc) k e0 hl
        have hmem := lookupN_mem hstat
        have hfw := firstWrapperErr_isSome_of_mem hmem
        have hcn := hCP.settledP h0
        unfold combinedNow at hcn
        rw [hmode] at hcn
        cases hfe : firstWrapperErr (runFrom .failFast tasks ext cs) with
        | none =>
            rw [hfe] at hfw
            cases hfw
        | some e1 =>
            rw [hfe] at hcn
            exact Option.noConfusion hcn
  · intro e hce
    exact hCP.ffErrWitness hmode e hce
  · intro n e' o hstat hco
    have hmk : ¬((runFrom .failFast tasks ext cs).mode = .flow ∧ e'.isMarker = true) := by
      rw [hmode]
      intro hc
      cases hc.1
    constructor
    · rw [step_task_eq, settleCombined_errors, stepTask_throwE_eq hstat, if_neg hmk]
      exact lookupN_setN_self _ _ _
    · exact step_combined_some hco (.task n)

/-- Task set for the C2 witness: `a` fails with `user 1`; `b` fails with
`user 2` only later in the schedule. -/
def C2tasks : List (String × Entry) :=
  [("a", .callable (.throwE (.user 1))), ("b", .callable (.throwE (.user 2)))]

def C2pre : List Choice := [.task "a", .task "b", .task "a"]

/-- Witness for C2 at a concrete input: after `a` fails, the combined
promise is rejected with `a`'s error; the instantiated theorem then
applies with all hypotheses discharged by evaluation. -/
theorem C2_fail_fast_first_error_witness :
    ((C2tasks.map Prod.fst).Nodup) ∧
    ((runFrom .failFast C2tasks none C2pre).combined = some (.error (.user 1))) ∧
    (∀ o, (runFrom .failFast C2tasks none C2pre).combined = some o →
      (runFrom .failFast C2tasks none (C2pre ++ [.task "b"])).combined = some o) :=
  ⟨by decide, by decide,
   (C2_fail_fast_first_error C2tasks none C2pre [.task "b"] (by decide)).1⟩

/-- C7: cancellation propagation.  (1) Under `all` (fail-fast) a task
failure aborts the shared internal controller with that error as the
cause — when the controller is not already aborted, since
`AbortController.abort` is idempotent; (2) the abort state (flag and
cause) is exactly what sibling tasks observe through their `$signal`
view; (3) under `allSettled` a task failure never triggers internal
cancellation: whenever the internal controller is aborted, the
caller-supplied external signal has been aborted and its reason is the
internal cause. -/
theorem C7_cancellation (tasks : List (String × Entry)) (ext : Option ExtState)
    (cs : List Choice) (hnd : (tasks.map Prod.fst).Nodup) :
    (∀ (s : EngineState) (n : String) (e : Err), s.mode = .failFast →
      lookupN s.stats n = some (.running (.throwE e)) →
      s.internalAborted = none →
      (step s (.task n)).internalAborted = some (some e)) ∧
    (∀ (s : EngineState) (m : String) (k : Bool → Option Err → Body),
      lookupN s.stats m = some (.running (.readSignal k)) →
      lookupN (stepTask s m).stats m =
        some (.running (k s.internalAborted.isSome
          (match s.internalAborted with | some r => r | none => none)))) ∧
    (∀ r, (runFrom .settleAll tasks ext cs).internalAborted = some r →
      (runFrom .settleAll tasks ext cs).ext = some (.abortedW r)) := by
  obtain ⟨hIC, hCP⟩ := EngineInv_runFrom .settleAll tasks ext cs hnd
  refine ⟨?_, ?_, ?_⟩
  · intro s n e hmode hstat hia
    have hmk : ¬(s.mode = .flow ∧ e.isMarker = true) := by
      rw [hmode]
      intro hc
      cases hc.1
    rw [step_task_eq, settleCombined_internalAborted, stepTask_throwE_eq hstat,
      if_neg hmk]
    show (match s.mode with
      | .settleAll => s.internalAborted
      | _ => match s.internalAborted with
             | none => some (some e)
             | some r => some r) = some (some e)
    rw [hmode, hia]
  · intro s m k hstat
    rw [stepTask_readSignal hstat]
    exact lookupN_setN_self _ _ _
  · exact fun r => hIC.iaSA (runFrom_mode .settleAll tasks ext cs) r

/-- Task set for the C7 witness: `a` fails; `b` would observe the
signal. -/
def C7tasks : List (String × Entry) :=
  [("a", .callable (.throwE (.user 9))),
   ("b", .callable (.readSignal (fun _ _ => .ret .undef)))]

def C7pre : List Choice := [.task "a", .task "b"]

/-- Witness for C7 at concrete inputs: task `a`'s failure in a fail-fast
run aborts the internal controller with `a`'s error as cause; under
settle-all the conclusion holds for the same tasks (hypotheses
discharged by evaluation). -/
theorem C7_cancellation_witness :
    ((C7tasks.map Prod.fst).Nodup) ∧
    ((runFrom .failFast C7tasks none C7pre).mode = .failFast) ∧
    ((runFrom .failFast C7tasks none C7pre).internalAborted = none) ∧
    (step (runFrom .failFast C7tasks none C7pre) (.task "a")).internalAborted =
      some (some (.user 9)) :=
  ⟨by decide, by decide, by decide,
   (C7_cancellation C7tasks none C7pre (by decide)).1
     (runFrom .failFast C7tasks none C7pre) "a" (.user 9)
     (by decide) rfl (by decide)⟩

theorem runFrom_append (mode : Mode) (tasks : List (String × Entry))
    (ext : Option ExtState) (cs cs' : List Choice) :
    runFrom mode tasks ext (cs ++ cs') = run (runFrom mode tasks ext cs) cs' :=
  run_append _ cs cs'

/-- C1: the memoization invariant, in any mode and under any schedule —
(a) no task's callable is ever invoked twice, and a callable task that
has started was invoked exactly once; (b) a recorded outcome (value or
error) persists unchanged under any continuation of the schedule, and no
task ever has both; (c) a dependency lookup made after the producer
settled resumes with exactly the recorded value or recorded error (the
proviso excludes the deliberate flow-ended short-circuit of `waitForDep`
lines 226-228); (d) a waiter suspended before the producer settled is
resumed, at the producer's settlement, with exactly the value being
recorded (when the producer fulfills, via the `resolve` drain of lines
290-294) or exactly the error being recorded (when the producer rejects,
via the `reject` drain of lines 302-306 — the proviso excludes flow
mode's internal markers, which the wrapper swallows without settling the
task).  Together: one invocation, one recorded outcome, and every
observer — earlier or later, one or many — sees that single value or
that same error. -/
theorem C1_outcome_memoized (mode : Mode) (tasks : List (String × Entry))
    (ext : Option ExtState) (cs more : List Choice)
    (hnd : (tasks.map Prod.fst).Nodup) :
    (runFrom mode tasks ext cs).invoked.Nodup ∧
    (∀ n b, lookupN tasks n = some (.callable b) →
      (∃ st, lookupN (runFrom mode tasks ext cs).stats n = some st ∧
        st ≠ TStat.notStarted) →
      (runFrom mode tasks ext cs).invoked.count n = 1) ∧
    (∀ n v, lookupN (runFrom mode tasks ext cs).results n = some v →
      lookupN (runFrom mode tasks ext (cs ++ more)).results n = some v) ∧
    (∀ n e, lookupN (runFrom mode tasks ext cs).errors n = some e →
      lookupN (runFrom mode tasks ext (cs ++ more)).errors n = some e) ∧
    (∀ n, lookupN (runFrom mode tasks ext cs).results n = none ∨
      lookupN (runFrom mode tasks ext cs).errors n = none) ∧
    (∀ n dep onOk onErr,
      lookupN (runFrom mode tasks ext cs).stats n =
        some (.running (.awaitDep dep onOk onErr)) →
      ¬((runFrom mode tasks ext cs).mode = .flow ∧
        (runFrom mode tasks ext cs).flowEnded = true) →
      (∀ v, lookupN (runFrom mode tasks ext cs).results dep = some v →
        lookupN (stepTask (runFrom mode tasks ext cs) n).stats n =
          some (.running (onOk v))) ∧
      (∀ e, lookupN (runFrom mode tasks ext cs).results dep = none →
        lookupN (runFrom mode tasks ext cs).errors dep = some e →
        lookupN (stepTask (runFrom mode tasks ext cs) n).stats n =
          some (.running (onErr e)))) ∧
    (∀ n dep onOk onErr v,
      lookupN (runFrom mode tasks ext cs).stats n =
        some (.blocked dep onOk onErr) →
      lookupN (runFrom mode tasks ext cs).stats dep =
        some (.running (.ret v)) →
      lookupN (stepTask (runFrom mode tasks ext cs) dep).stats n =
        some (.running (onOk v)) ∧
      lookupN (stepTask (runFrom mode tasks ext cs) dep).results dep = some v) ∧
    (∀ n dep onOk onErr e,
      lookupN (runFrom mode tasks ext cs).stats n =
        some (.blocked dep onOk onErr) →
      lookupN (runFrom mode tasks ext cs).stats dep =
        some (.running (.throwE e)) →
      ¬((runFrom mode tasks ext cs).mode = .flow ∧ e.isMarker = true) →
      lookupN (stepTask (runFrom mode tasks ext cs) dep).stats n =
        some (.running (onErr e)) ∧
      lookupN (stepTask (runFrom mode tasks ext cs) dep).errors dep = some e) := by
  obtain ⟨hIC, hCP⟩ := EngineInv_runFrom mode tasks ext cs hnd
  have hknOf : ∀ dep st, lookupN (runFrom mode tasks ext cs).stats dep = some st →
      (lookupN (runFrom mode tasks ext cs).tasks dep).isNone = false := by
    intro dep st hst
    have hmem : dep ∈ (runFrom mode tasks ext cs).stats.map Prod.fst := by
      rw [← lookupN_isSome_iff, hst]
      rfl
    rw [hIC.statsKeys, ← lookupN_isSome_iff] at hmem
    cases hx : lookupN (runFrom mode tasks ext cs).tasks dep with
    | none => rw [hx] at hmem; cases hmem
    | some _ => rfl
  refine ⟨hIC.invokedNd, ?_, ?_, ?_, hIC.notBoth, ?_, ?_, ?_⟩
  · intro n b htask hex
    have hmem : n ∈ (runFrom mode tasks ext cs).invoked := by
      apply (hIC.invokedIff n).mpr
      refine ⟨⟨b, ?_⟩, hex⟩
      rw [runFrom_tasks]
      exact htask
    exact List.count_eq_one_of_mem hIC.invokedNd hmem
  · intro n v h
    rw [runFrom_append]
    exact run_results_mono hIC more h
  · intro n e h
    rw [runFrom_append]
    exact run_errors_mono hIC more h
  · intro n dep onOk onErr hstat hnf
    constructor
    · intro v hv
      have hkn : (lookupN (runFrom mode tasks ext cs).tasks dep).isNone = false := by
        obtain ⟨st, hst, -⟩ := hIC.recDone dep (Or.inl (by rw [hv]; rfl))
        exact hknOf dep st hst
      rw [stepTask_awaitDep_ok hstat hkn hnf hv]
      exact lookupN_setN_self _ _ _
    · intro e hv he
      have hkn : (lookupN (runFrom mode tasks ext cs).tasks dep).isNone = false := by
        obtain ⟨st, hst, -⟩ := hIC.recDone dep (Or.inr (by rw [he]; rfl))
        exact hknOf dep st hst
      rw [stepTask_awaitDep_err hstat hkn hnf hv he]
      exact lookupN_setN_self _ _ _
  · intro n dep onOk onErr v hstat hstat2
    have hne : n ≠ dep := by
      intro hc
      rw [hc, hstat2] at hstat
      injection hstat with hstat
      exact TStat.noConfusion hstat
    rw [stepTask_ret hstat2]
    constructor
    · show lookupN (drainOk (updStat (runFrom mode tasks ext cs).stats dep
        TStat.settledOk) dep v) n = _
      have h2 : lookupN (updStat (runFrom mode tasks ext cs).stats dep
          TStat.settledOk) n = lookupN (runFrom mode tasks ext cs).stats n :=
        lookupN_setN_ne _ _ _ _ hne
      rw [lookupN_drainOk, h2, hstat]
      show some (resumeOk dep v (.blocked dep onOk onErr)) = _
      simp [resumeOk]
    · exact lookupN_setN_self _ _ _
  · intro n dep onOk onErr e hstat hstat2 hguard
    have hne : n ≠ dep := by
      intro hc
      rw [hc, hstat2] at hstat
      injection hstat with hstat
      exact TStat.noConfusion hstat
    rw [stepTask_throwE_eq hstat2, if_neg hguard]
    constructor
    · show lookupN (drainErr (updStat (runFrom mode tasks ext cs).stats dep
        (match (runFrom mode tasks ext cs).mode with
         | .settleAll => TStat.settledOk
         | _ => TStat.settledErr e)) dep e) n = _
      have h2 : lookupN (updStat (runFrom mode tasks ext cs).stats dep
          (match (runFrom mode tasks ext cs).mode with
           | .settleAll => TStat.settledOk
           | _ => TStat.settledErr e)) n =
          lookupN (runFrom mode tasks ext cs).stats n :=
        lookupN_setN_ne _ _ _ _ hne
      rw [lookupN_drainErr, h2, hstat]
      show some (resumeErr dep e (.blocked dep onOk onErr)) = _
      simp [resumeErr]
    · exact lookupN_setN_self _ _ _

/-- Task set for the C1 witness: `b` looks up `a` after `a` settled. -/
def C1tasks : List (String × Entry) :=
  [("a", .callable (.ret (.num 1))),
   ("b", .callable (.awaitDep "a"
      (fun v => .ret v) Body.throwE))]

def C1pre : List Choice := [.task "a", .task "a", .task "b"]

/-- Task set for the C1 witness's rejecting producer: `b` suspends on `a`
while `a` is still pending; `a` then throws. -/
def C1tasksE : List (String × Entry) :=
  [("a", .callable (.throwE (.user 3))),
   ("b", .callable (.awaitDep "a" Body.ret Body.throwE))]

def C1preE : List Choice := [.task "b", .task "b", .task "a"]

/-- Witness for C1 at two concrete inputs: after `a` fulfilled with `1`
and `b` started, `b`'s lookup of `a` resumes with the recorded value `1`
(the count and persistence conjuncts are instantiated at `a`); and with
`b` suspended on a still-pending `a` that then throws `user 3`, `a`'s
rejection resumes the waiting `b` with that same error as it is
recorded. -/
theorem C1_outcome_memoized_witness :
    ((C1tasks.map Prod.fst).Nodup) ∧
    ((runFrom .failFast C1tasks none C1pre).invoked.Nodup ∧
      (runFrom .failFast C1tasks none C1pre).invoked.count "a" = 1 ∧
      lookupN (runFrom .failFast C1tasks none C1pre).results "a" = some (.num 1) ∧
      lookupN
        (stepTask (runFrom .failFast C1tasks none C1pre) "b").stats "b" =
        some (.running (Body.ret (.num 1)))) ∧
    (lookupN (runFrom .failFast C1tasksE none C1preE).stats "b" =
        some (.blocked "a" Body.ret Body.throwE) ∧
      lookupN
        (stepTask (runFrom .failFast C1tasksE none C1preE) "a").stats "b" =
        some (.running (Body.throwE (.user 3))) ∧
      lookupN
        (stepTask (runFrom .failFast C1tasksE none C1preE) "a").errors "a" =
        some (.user 3)) := by
  refine ⟨by decide, ⟨(C1_outcome_memoized .failFast C1tasks none C1pre []
      (by decide)).1, ?_, by decide, ?_⟩, rfl, ?_⟩
  · exact (C1_outcome_memoized .failFast C1tasks none C1pre [] (by decide)).2.1
      "a" (.ret (.num 1)) rfl ⟨.settledOk, rfl, by intro hc; exact TStat.noConfusion hc⟩
  · exact ((C1_outcome_memoized .failFast C1tasks none C1pre [] (by decide)).2.2.2.2.2.1
      "b" "a" (fun v => .ret v) Body.throwE rfl (by decide)).1 (.num 1) rfl
  · exact (C1_outcome_memoized .failFast C1tasksE none C1preE []
      (by decide)).2.2.2.2.2.2.2 "b" "a" Body.ret Body.throwE (.user 3)
      rfl rfl (by decide)

/-- Task set refuting C8: `a` looks up `b` and suspends while `b` is
still pending; `b` then ends the flow with `42`. -/
def C8tasks : List (String × Entry) :=
  [("a", .callable (.awaitDep "b" Body.ret Body.throwE)),
   ("b", .callable (.endFlow (.num 42)))]

/-- Schedule: `a` starts and suspends on `b`; `b` starts and calls
`$end(42)`. -/
def C8pre : List Choice := [.task "a", .task "a", .task "b", .task "b"]

def C8state : EngineState := runFrom .flow C8tasks none C8pre

/-- C8 is refuted: the wrapper of an `$end` task returns through the
`FlowEndError` catch (lines 368-378) without calling `handleResult` or
`handleError`, so the waiters registered on that task (line 277-280) are
never resumed.  In `C8state` the flow has ended, yet task `a` is still
suspended on its lookup of `b`, the combined promise is unsettled, and
every continuation of the schedule leaves the state unchanged: the
pending lookup hangs forever and the combined promise never settles,
contradicting the claimed immediate "flow already ended" failure of
already-pending lookups. -/
theorem C8_flow_pending_lookup_deadlock :
    C8state.flowEnded = true ∧
    lookupN C8state.stats "a" =
      some (.blocked "b" Body.ret Body.throwE) ∧
    C8state.combined = none ∧
    ∀ cs, run C8state cs = C8state := by
  refine ⟨rfl, rfl, rfl, ?_⟩
  have hcn : combinedNow C8state = none := rfl
  have hstep : ∀ c, step C8state c = C8state := by
    intro c
    cases c with
    | task n =>
        rw [step_task_eq]
        have hla : lookupN C8state.stats n =
            if "a" = n then some (TStat.blocked "b" Body.ret Body.throwE)
            else if "b" = n then some TStat.settledOk else none := rfl
        have hst : stepTask C8state n = C8state := by
          by_cases h1 : "a" = n
          · rw [if_pos h1] at hla
            exact stepTask_blocked hla
          · rw [if_neg h1] at hla
            by_cases h2 : "b" = n
            · rw [if_pos h2] at hla
              exact stepTask_settledOk hla
            · rw [if_neg h2] at hla
              exact stepTask_none hla
        rw [hst]
        exact settleCombined_id hcn
    | extAbort r =>
        rw [step_extAbort_eq]
        have hext : C8state.ext = none := rfl
        have hda : doExtAbort C8state r = C8state := by
          unfold doExtAbort
          rw [hext]
        rw [hda]
        exact settleCombined_id hcn
  intro cs
  induction cs with
  | nil => rfl
  | cons c t ih =>
      rw [run_cons, hstep c]
      exact ih

/-! ## Flow termination: write-once `flowEnded` and marker filtering -/

theorem stepTask_flow_once {s : EngineState} (n : String) (h : s.flowEnded = true) :
    (stepTask s n).flowEnded = true ∧ (stepTask s n).flowEndValue = s.flowEndValue := by
  unfold stepTask succeed failT
  repeat' split
  all_goals exact ⟨h, rfl⟩

theorem step_flow_once {s : EngineState} (c : Choice) (h : s.flowEnded = true) :
    (step s c).flowEnded = true ∧ (step s c).flowEndValue = s.flowEndValue := by
  cases c with
  | task n =>
      rw [step_task_eq, settleCombined_flowEnded, settleCombined_flowEndValue]
      exact stepTask_flow_once n h
  | extAbort r =>
      rw [step_extAbort_eq, settleCombined_flowEnded, settleCombined_flowEndValue,
        doExtAbort_flowEnded, doExtAbort_flowEndValue]
      exact ⟨h, rfl⟩

/-- `flowEnded` latches (line 332 checks `flowEnded` before writing), so
the first `$end` call fixes the flow's end value for good. -/
theorem run_flow_once {s : EngineState} (cs : List Choice) (h : s.flowEnded = true) :
    (run s cs).flowEnded = true ∧ (run s cs).flowEndValue = s.flowEndValue := by
  induction cs generalizing s with
  | nil => exact ⟨h, rfl⟩
  | cons c cs ih =>
      obtain ⟨h1, h2⟩ := step_flow_once c h
      obtain ⟨h3, h4⟩ := ih h1
      exact ⟨h3, by rw [run_cons, h4, h2]⟩

/-- An abort reason supplied from outside is not one of the engine's
internal flow-control markers (`FlowEndError` / `FlowAbortedError` are
module-private classes, never exported). -/
def reasonOk (r : Option Err) : Prop :=
  ∀ e, r = some e → e.isMarker = false

def extROk : Option ExtState → Prop
  | some (.abortedW r) => reasonOk r
  | _ => True

def choiceOk : Choice → Prop
  | .extAbort r => reasonOk r
  | .task _ => True

/-- Marker-filtering invariant of a flow run: the external signal's abort
reason (if any) is not a marker, and a settled combined rejection carries
a non-marker error that is either a recorded task error or the external
abort reason; a settled combined resolution carries a flow value. -/
def MInv (s : EngineState) : Prop :=
  extROk s.ext ∧
  (s.mode = .flow → ∀ e, s.combined = some (.error e) →
    e.isMarker = false ∧
    ((∃ n, lookupN s.errors n = some e) ∨
     (∃ r, s.ext = some (.abortedW r) ∧ e = r.getD Err.aborted))) ∧
  (s.mode = .flow → ∀ x, s.combined = some (.ok x) → ∃ v, x = Ret.flowVal v)

theorem MInv_settleCombined {s : EngineState} (hI : InvCore s) (hM : MInv s) :
    MInv (settleCombined s) := by
  obtain ⟨hext, hcombE, hcombO⟩ := hM
  rcases settleCombined_spec s with ⟨heq, -⟩ | ⟨o, h0, hcn, heq⟩
  · rw [heq]
    exact ⟨hext, hcombE, hcombO⟩
  · rw [heq]
    refine ⟨hext, ?_, ?_⟩
    · intro hfl e hce
      replace hfl : s.mode = .flow := hfl
      replace hce : some o = some (Except.error e) := hce
      injection hce with hce
      subst hce
      rcases combinedNow_some_spec hcn with ⟨hm, -⟩ | ⟨hm, -⟩ | ⟨hm, -⟩ |
        ⟨-, -, hcase⟩
      · rw [hm] at hfl; cases hfl
      · rw [hm] at hfl; cases hfl
      · rw [hm] at hfl; cases hfl
      · rcases hcase with ⟨r, hre, hoe⟩ | ⟨e', hfw, hoe⟩ | ⟨-, hoe⟩
        · injection hoe with hoe
          subst hoe
          have hro : reasonOk r := by
            have h1 : extROk (some (.abortedW r)) := hre ▸ hext
            exact h1
          refine ⟨?_, Or.inr ⟨r, hre, rfl⟩⟩
          cases r with
          | none => rfl
          | some e' => exact hro e' rfl
        · injection hoe with hoe
          subst hoe
          obtain ⟨m, hmem⟩ := firstWrapperErr_some hfw
          have hlk : lookupN s.stats m = some (.settledErr e) :=
            mem_lookupN hI.keysNd hmem
          exact ⟨hI.errNonMarkerFlow hfl m e hlk,
            Or.inl ⟨m, hI.errStat m e hlk⟩⟩
        · exact Except.noConfusion hoe
    · intro hfl x hce
      replace hfl : s.mode = .flow := hfl
      replace hce : some o = some (Except.ok x) := hce
      injection hce with hce
      subst hce
      rcases combinedNow_some_spec hcn with ⟨hm, -⟩ | ⟨hm, -⟩ | ⟨hm, -⟩ |
        ⟨-, -, hcase⟩
      · rw [hm] at hfl; cases hfl
      · rw [hm] at hfl; cases hfl
      · rw [hm] at hfl; cases hfl
      · rcases hcase with ⟨r, -, hoe⟩ | ⟨e', -, hoe⟩ | ⟨-, hoe⟩
        · exact Except.noConfusion hoe
        · exact Except.noConfusion hoe
        · injection hoe with hoe
          exact ⟨_, hoe⟩

theorem MInv_stepTask {s : EngineState} (hI : InvCore s) (hM : MInv s) (n : String) :
    MInv (stepTask s n) := by
  obtain ⟨hext, hcombE, hcombO⟩ := hM
  refine ⟨?_, ?_, ?_⟩
  · rw [show (stepTask s n).ext = s.ext from stepTask_ext s n]
    exact hext
  · intro hfl e hce
    rw [stepTask_mode] at hfl
    rw [stepTask_combined] at hce
    obtain ⟨hnm, hw⟩ := hcombE hfl e hce
    refine ⟨hnm, ?_⟩
    rcases hw with ⟨m, hme⟩ | ⟨r, hre, hge⟩
    · exact Or.inl ⟨m, stepTask_errors_mono hI n hme⟩
    · refine Or.inr ⟨r, ?_, hge⟩
      rw [stepTask_ext]
      exact hre
  · intro hfl x hce
    rw [stepTask_mode] at hfl
    rw [stepTask_combined] at hce
    exact hcombO hfl x hce

theorem MInv_doExtAbort {s : EngineState} (hM : MInv s) (r : Option Err)
    (hr : reasonOk r) : MInv (doExtAbort s r) := by
  obtain ⟨hext, hcombE, hcombO⟩ := hM
  unfold doExtAbort
  cases hx : s.ext with
  | none => exact ⟨hext, hcombE, hcombO⟩
  | some es =>
      cases es with
      | abortedW r' => exact ⟨hext, hcombE, hcombO⟩
      | notAborted =>
          refine ⟨hr, ?_, ?_⟩
          · intro hfl e hce
            replace hfl : s.mode = .flow := hfl
            replace hce : s.combined = some (Except.error e) := hce
            obtain ⟨hnm, hw⟩ := hcombE hfl e hce
            refine ⟨hnm, ?_⟩
            rcases hw with ⟨m, hme⟩ | ⟨r', hre, -⟩
            · exact Or.inl ⟨m, hme⟩
            · rw [hx] at hre
              injection hre with hre
              exact ExtState.noConfusion hre
          · intro hfl x hce
            replace hfl : s.mode = .flow := hfl
            replace hce : s.combined = some (Except.ok x) := hce
            exact hcombO hfl x hce

theorem MInv_step {s : EngineState} (hI : InvCore s) (hM : MInv s) (c : Choice)
    (hc : choiceOk c) : MInv (step s c) := by
  cases c with
  | task n =>
      rw [step_task_eq]
      exact MInv_settleCombined (InvCore_stepTask hI n) (MInv_stepTask hI hM n)
  | extAbort r =>
      rw [step_extAbort_eq]
      exact MInv_settleCombined (InvCore_doExtAbort hI r) (MInv_doExtAbort hM r hc)

theorem MInv_run {s : EngineState} (hI : InvCore s) (hM : MInv s)
    {cs : List Choice} (hcs : ∀ c ∈ cs, choiceOk c) : MInv (run s cs) := by
  induction cs generalizing s with
  | nil => exact hM
  | cons c t ih =>
      rw [run_cons]
      exact ih (InvCore_step hI c)
        (MInv_step hI hM c (hcs c (List.mem_cons_self c t)))
        (fun c' hc' => hcs c' (List.mem_cons_of_mem c hc'))

theorem MInv_initBase (mode : Mode) (tasks : List (String × Entry))
    (ext : Option ExtState) (hext : extROk ext) : MInv (initBase mode tasks ext) := by
  refine ⟨hext, ?_, ?_⟩
  · intro _ e hce
    exact Option.noConfusion
      (show (none : Option (Except Err Ret)) = some (Except.error e) from hce)
  · intro _ x hce
    exact Option.noConfusion
      (show (none : Option (Except Err Ret)) = some (Except.ok x) from hce)

theorem MInv_runFrom (mode : Mode) (tasks : List (String × Entry))
    (ext : Option ExtState) {cs : List Choice} (hnd : (tasks.map Prod.fst).Nodup)
    (hext : extROk ext) (hcs : ∀ c ∈ cs, choiceOk c) :
    MInv (runFrom mode tasks ext cs) := by
  unfold runFrom initState
  exact MInv_run (InvCore_settleCombined (InvCore_initBase mode tasks ext hnd))
    (MInv_settleCombined (InvCore_initBase mode tasks ext hnd)
      (MInv_initBase mode tasks ext hext)) hcs

/-- C9: in flow mode — (a) the first `$end` wins: once the flow has
ended, any continuation of the schedule leaves `flowEnded` and the
recorded end value unchanged (line 332); (b) a resolved combined promise
always carries a flow value, (c) which is the recorded `$end` value if
the flow ended and the explicit no-value result (`undefined`) if no task
ever called `$end` (lines 421-427); (d) a rejected combined promise
never carries one of the internal flow-control markers — given that the
caller's abort reasons are not the module-private marker classes — and
its reason is either a genuine recorded task error or the external abort
reason (lines 405-419); (e) a genuine uncaught task error prevents
resolution: if any wrapper was rejected, the combined promise did not
resolve (lines 415-419). -/
theorem C9_flow_resolution (tasks : List (String × Entry)) (ext : Option ExtState)
    (cs more : List Choice) (hnd : (tasks.map Prod.fst).Nodup)
    (hext : extROk ext) (hcs : ∀ c ∈ cs, choiceOk c) :
    ((runFrom .flow tasks ext cs).flowEnded = true →
      (runFrom .flow tasks ext (cs ++ more)).flowEnded = true ∧
      (runFrom .flow tasks ext (cs ++ more)).flowEndValue =
        (runFrom .flow tasks ext cs).flowEndValue) ∧
    (∀ x, (runFrom .flow tasks ext cs).combined = some (.ok x) →
      ∃ v, x = Ret.flowVal v) ∧
    (∀ v, (runFrom .flow tasks ext cs).combined = some (.ok (.flowVal v)) →
      v = (if (runFrom .flow tasks ext cs).flowEnded = true
           then (runFrom .flow tasks ext cs).flowEndValue else Val.undef)) ∧
    (∀ e, (runFrom .flow tasks ext cs).combined = some (.error e) →
      e.isMarker = false ∧
      ((∃ n, lookupN (runFrom .flow tasks ext cs).errors n = some e) ∨
       (∃ r, (runFrom .flow tasks ext cs).ext = some (.abortedW r) ∧
         e = r.getD Err.aborted))) ∧
    (∀ x, (runFrom .flow tasks ext cs).combined = some (.ok x) →
      firstWrapperErr (runFrom .flow tasks ext cs) = none) := by
  obtain ⟨hIC, hCP⟩ := EngineInv_runFrom .flow tasks ext cs hnd
  have hM : MInv (runFrom .flow tasks ext cs) := MInv_runFrom .flow tasks ext hnd hext hcs
  have hmode : (runFrom .flow tasks ext cs).mode = .flow := runFrom_mode .flow tasks ext cs
  refine ⟨?_, hM.2.2 hmode, hCP.combFlowVal hmode, hM.2.1 hmode,
    hCP.combOkNoErrFlow hmode⟩
  intro h
  rw [runFrom_append]
  exact run_flow_once more h

/-- Task set for the C9 witness: a single task that ends the flow with
the value `7`. -/
def C9tasks : List (String × Entry) :=
  [("a", .callable (.endFlow (.num 7)))]

def C9cs : List Choice := [.task "a", .task "a"]

/-- Witness for C9 at a concrete input: the flow of one `$end(7)` task
settles resolved with the flow value `7`, and the resolution-value
conjunct instantiated there equates `7` with the recorded end value. -/
theorem C9_flow_resolution_witness :
    (runFrom .flow C9tasks none C9cs).combined =
      some (.ok (.flowVal (.num 7))) ∧
    Val.num 7 = (if (runFrom .flow C9tasks none C9cs).flowEnded = true
      then (runFrom .flow C9tasks none C9cs).flowEndValue else Val.undef) := by
  refine ⟨rfl, ?_⟩
  exact (C9_flow_resolution C9tasks none C9cs [] (by decide) (by exact True.intro)
    (by
      intro c hc
      rcases List.mem_cons.mp hc with rfl | hc2
      · exact True.intro
      rcases List.mem_cons.mp hc2 with rfl | hc3
      · exact True.intro
      cases hc3)).2.2.1 (.num 7) rfl

/-! ## External abort pins the flow outcome -/

theorem doExtAbort_already {s : EngineState} {r : Option Err}
    (hx : s.ext = some (.abortedW r)) (r' : Option Err) :
    doExtAbort s r' = s := by
  unfold doExtAbort
  rw [hx]

/-- With an already-aborted external signal, the flow handler's signal
check (lines 405-412) fixes the only settlement the combined promise can
take: rejection with the signal's reason, or `Aborted` when none was
given. -/
theorem combinedNow_flow_aborted {s : EngineState} {r : Option Err}
    {o : Except Err Ret} (hm : s.mode = .flow)
    (hx : s.ext = some (.abortedW r)) (h : combinedNow s = some o) :
    o = .error (r.getD Err.aborted) := by
  unfold combinedNow at h
  rw [hm] at h
  replace h :
      (if allDone s = true then
        some
          (match s.ext with
           | some (.abortedW r) => Except.error (r.getD .aborted)
           | _ =>
               match firstWrapperErr s with
               | some e => Except.error e
               | none =>
                   Except.ok (.flowVal
                     (if s.flowEnded = true then s.flowEndValue else Val.undef)))
      else none) = some o := h
  by_cases hd : allDone s = true
  · rw [if_pos hd] at h
    rw [hx] at h
    injection h with h
    exact h.symm
  · rw [if_neg hd] at h
    cases h

theorem step_flow_abort_pin {s : EngineState} {r : Option Err} (c : Choice)
    (hm : s.mode = .flow) (hx : s.ext = some (.abortedW r))
    (hc : s.combined = none ∨ s.combined = some (.error (r.getD Err.aborted))) :
    (step s c).mode = .flow ∧ (step s c).ext = some (.abortedW r) ∧
    ((step s c).combined = none ∨
      (step s c).combined = some (.error (r.getD Err.aborted))) := by
  have hmode : (step s c).mode = .flow := by rw [step_mode]; exact hm
  have hext : (step s c).ext = some (.abortedW r) := by
    cases c with
    | task n =>
        rw [step_task_eq, settleCombined_ext, stepTask_ext]
        exact hx
    | extAbort r' =>
        rw [step_extAbort_eq, settleCombined_ext, doExtAbort_already hx r']
        exact hx
  refine ⟨hmode, hext, ?_⟩
  cases hc with
  | inr hsome => exact Or.inr (step_combined_some hsome c)
  | inl hnone =>
      cases c with
      | task n =>
          rw [step_task_eq]
          rcases settleCombined_spec (stepTask s n) with ⟨heq, -⟩ | ⟨o, -, hcn, heq⟩
          · rw [heq, stepTask_combined]
            exact Or.inl hnone
          · rw [heq]
            right
            have ho : o = .error (r.getD Err.aborted) :=
              combinedNow_flow_aborted
                (by rw [stepTask_mode]; exact hm)
                (by rw [stepTask_ext]; exact hx) hcn
            rw [ho]
      | extAbort r' =>
          rw [step_extAbort_eq, doExtAbort_already hx r']
          rcases settleCombined_spec s with ⟨heq, -⟩ | ⟨o, -, hcn, heq⟩
          · rw [heq]
            exact Or.inl hnone
          · rw [heq]
            right
            have ho : o = .error (r.getD Err.aborted) :=
              combinedNow_flow_aborted hm hx hcn
            rw [ho]

theorem run_flow_abort_pin {s : EngineState} {r : Option Err} (cs : List Choice)
    (hm : s.mode = .flow) (hx : s.ext = some (.abortedW r))
    (hc : s.combined = none ∨ s.combined = some (.error (r.getD Err.aborted))) :
    (run s cs).mode = .flow ∧ (run s cs).ext = some (.abortedW r) ∧
    ((run s cs).combined = none ∨
      (run s cs).combined = some (.error (r.getD Err.aborted))) := by
  induction cs generalizing s with
  | nil => exact ⟨hm, hx, hc⟩
  | cons c t ih =>
      obtain ⟨h1, h2, h3⟩ := step_flow_abort_pin c hm hx hc
      rw [run_cons]
      exact ih h1 h2 h3

/-- C10: if, during a flow run, the external signal is aborted with
reason `r` while the combined promise is still unsettled, then under any
continuation of the schedule the combined promise can only settle
rejected with `r` (or the `Aborted` default when the reason is absent) —
regardless of how the tasks themselves fare — and it does settle that
way once every wrapper promise has settled (lines 405-412).  By
contrast, `all`'s combined rejection reason is always a recorded task
error, and `allSettled`'s combined promise never rejects at all (lines
429-433), so neither rejects merely because the external signal
aborted. -/
theorem C10_external_abort_rejection (tasks : List (String × Entry))
    (ext : Option ExtState) (cs more : List Choice) (r : Option Err)
    (hnd : (tasks.map Prod.fst).Nodup) :
    ((runFrom .flow tasks ext cs).ext = some (.abortedW r) →
      (runFrom .flow tasks ext cs).combined = none →
      ((runFrom .flow tasks ext (cs ++ more)).combined = none ∨
        (runFrom .flow tasks ext (cs ++ more)).combined =
          some (.error (r.getD Err.aborted))) ∧
      (allDone (runFrom .flow tasks ext (cs ++ more)) = true →
        (runFrom .flow tasks ext (cs ++ more)).combined =
          some (.error (r.getD Err.aborted)))) ∧
    (∀ e, (runFrom .failFast tasks ext cs).combined = some (.error e) →
      ∃ n, lookupN (runFrom .failFast tasks ext cs).errors n = some e) ∧
    (∀ e, (runFrom .settleAll tasks ext cs).combined ≠ some (.error e)) := by
  refine ⟨?_, ?_, ?_⟩
  · intro hx h0
    have hm : (runFrom .flow tasks ext cs).mode = .flow :=
      runFrom_mode .flow tasks ext cs
    have hpin := run_flow_abort_pin more hm hx (Or.inl h0)
    have E := runFrom_append .flow tasks ext cs more
    rw [← E] at hpin
    refine ⟨hpin.2.2, ?_⟩
    intro hall
    rcases hpin.2.2 with hnone | herr
    · exfalso
      obtain ⟨-, hCP2⟩ := EngineInv_runFrom .flow tasks ext (cs ++ more) hnd
      exact combinedNow_ne_none_of_allDone hall (hCP2.settledP hnone)
    · exact herr
  · intro e hce
    obtain ⟨-, hCPf⟩ := EngineInv_runFrom .failFast tasks ext cs hnd
    exact hCPf.ffErrWitness (runFrom_mode .failFast tasks ext cs) e hce
  · intro e
    obtain ⟨-, hCPs⟩ := EngineInv_runFrom .settleAll tasks ext cs hnd
    exact hCPs.combNotErrSA (runFrom_mode .settleAll tasks ext cs) e

/-- Task set for the C10 witness: one task that completes successfully. -/
def C10tasks : List (String × Entry) :=
  [("a", .callable (.ret (.num 1)))]

def C10cs : List Choice := [.task "a", .task "a"]

/-- Witness for C10 at a concrete input: the external signal is aborted
with reason `user 5` before the run; the single task completes
successfully, yet once it has concluded the combined flow promise is
rejected with exactly that reason. -/
theorem C10_external_abort_rejection_witness :
    (runFrom .flow C10tasks (some (.abortedW (some (.user 5)))) []).ext =
      some (.abortedW (some (.user 5))) ∧
    (runFrom .flow C10tasks (some (.abortedW (some (.user 5)))) []).combined =
      none ∧
    allDone (runFrom .flow C10tasks (some (.abortedW (some (.user 5))))
      ([] ++ C10cs)) = true ∧
    (runFrom .flow C10tasks (some (.abortedW (some (.user 5))))
      ([] ++ C10cs)).combined = some (.error (.user 5)) := by
  refine ⟨rfl, rfl, by decide, ?_⟩
  exact ((C10_external_abort_rejection C10tasks (some (.abortedW (some (.user 5))))
    [] C10cs (some (.user 5)) (by decide)).1 rfl rfl).2 (by decide)
